import Mathlib

/-!
# Verification of the holoware prompt-template engine

Shallow embedding of the core of the `Holang.Core` holoware subsystem:
the fragment/context renderer (`context.py`), the span handlers and
evaluator main walk (`holoware_handlers.py`, `holoware.py`), the tag
builders and parser (`holoware_parser.py`), and the `trained_contexts`
property (`holoware.py`).

Text is modelled as `List Char` (`Str`).  Python's `None`-able strings are
`Option Str`.  The external `Rollout` collaborator (module `errloom.tapestry`,
not part of the sources) is modelled from the spec: an ordered list of
contexts, `new_context` appends a fresh context, `add_frag` appends a
fragment to the active (last) context, creating one if none exists.
-/

namespace Holoware

/-- Text is a list of characters; Python `str`. -/
abbrev Str := List Char

/-- Coerce a Lean string literal to the `Str` model. -/
def str (s : String) : Str := s.data

/-- Python `\s` / `str.strip` whitespace characters (ASCII fragment). -/
def isPySpace (c : Char) : Bool :=
  c = ' ' ∨ c = '\t' ∨ c = '\n' ∨ c = '\r' ∨ c = '\x0b' ∨ c = '\x0c'

/-- Python `str.lstrip()`. -/
def pyLStrip (s : Str) : Str := s.dropWhile isPySpace

/-- Python `str.rstrip()`. -/
def pyRStrip (s : Str) : Str := (s.reverse.dropWhile isPySpace).reverse

/-- Python `str.strip()`: whitespace removed from both ends. -/
def pyStrip (s : Str) : Str := pyRStrip (pyLStrip s)

/-- Python `str.rstrip(c)` for a single character `c`. -/
def pyRStripChar (c : Char) (s : Str) : Str :=
  (s.reverse.dropWhile (· = c)).reverse

/-- `len(s) - len(s.rstrip('\n'))`: the number of trailing newlines.
(`optimize_block` defines both `count_tail` and `count_head` this way;
the source's `count_head` is a verbatim copy of `count_tail`.) -/
def countTailNL (s : Str) : Nat := s.length - (pyRStripChar '\n' s).length

/-- Concatenation of a list of strings (`"".join`). -/
def strConcat (xs : List Str) : Str := xs.flatten

/-- `sep.join(xs)`. -/
def joinSep (sep : Str) : List Str → Str
  | [] => []
  | [x] => x
  | x :: y :: xs => x ++ sep ++ joinSep sep (y :: xs)

-- ---------------------------------------------------------------------
-- Fragment / context model (context.py)
-- ---------------------------------------------------------------------

/-- `FragType`: training mask of a fragment. -/
inductive FragType where
  | frozen
  | reinforce
  deriving DecidableEq, Repr

/-- Ghost tag recording which handler action emitted a fragment.  This field
does not exist in the source; it instruments the model so that statements
about "fragments emitted by a `Sample` span" (etc.) can be expressed.  No
modelled code branches on it. -/
inductive SrcKind where
  | textSrc    -- `SpanHandler.TextSpan`
  | objSrc     -- `SpanHandler.ObjSpan`
  | clsSrc     -- `SpanHandler.ClassSpan` (`__holo__` insertion)
  | fenceSrc   -- `SpanHandler.SampleSpan`, the opening fence tag
  | sampleSrc  -- `SpanHandler.SampleSpan`, the sampled text
  | outside    -- fragments not produced by the evaluator
  deriving DecidableEq, Repr

/-- `Frag`: a fragment of text with role and training mask
(plus the ghost `src` emission tag, see `SrcKind`). -/
structure Frag where
  text : Str
  ego : Option Str
  ftype : FragType
  src : SrcKind := SrcKind.outside
  deriving DecidableEq, Repr

/-- A chat message, as produced by `Context.to_api_messages`. -/
structure PyMsg where
  role : Str
  content : Str
  deriving DecidableEq, Repr

/-- `_normalize_role` from `Context.to_api_messages` / `to_api_string`. -/
def normalizeRole (raw : Option Str) (isFirst : Bool) : Str :=
  match raw with
  | some r => if r = str "system" ∨ r = str "user" ∨ r = str "assistant" then r else str "user"
  | none => if isFirst then str "system" else str "user"

/-- Loop body of `Context.to_api_messages`: `cur` is `current_role`, `texts`
the accumulated same-role texts.  On a role change the finished message is
emitted with stripped content (dropped when empty unless `dry`); the tail
flush at the end emits the concatenation *unstripped*. -/
def msgsGo (dry : Bool) (cur : Str) (texts : List Str) : List Frag → List PyMsg
  | [] =>
      let s := strConcat texts
      if s ≠ [] ∨ dry then [⟨cur, s⟩] else []
  | f :: fs =>
      let r := normalizeRole f.ego false
      if r = cur then msgsGo dry cur (texts ++ [f.text]) fs
      else
        let s := strConcat texts
        (if s ≠ [] ∨ dry then [⟨cur, pyStrip s⟩] else []) ++ msgsGo dry r [f.text] fs

/-- `Context.to_api_messages(render_dry)`: coalesce consecutive fragments
with the same normalized role.  The first fragment is normalized with
`is_first = True`, all others with `False`. -/
def toApiMessages (frags : List Frag) (dry : Bool) : List PyMsg :=
  match frags with
  | [] => []
  | f :: fs => msgsGo dry (normalizeRole f.ego true) [f.text] fs

/-- One `<|im_start|>…<|im_end|>` block of `Context.to_api_string`. -/
def renderBlock (m : PyMsg) : Str :=
  str "<|im_start|>" ++ m.role ++ ['\n'] ++ m.content ++ ['\n'] ++ str "<|im_end|>"

/-- `Context.to_api_string()`: render the messages as delimiter blocks and,
when the last raw fragment normalizes to "assistant" with empty text,
append the open tail `<|im_start|>assistant`. -/
def toApiString (frags : List Frag) : Str :=
  let messages := toApiMessages frags false
  let blocks := messages.map renderBlock
  match frags.getLast? with
  | some lastF =>
      let lastNorm := normalizeRole lastF.ego (frags.length - 1 = 0)
      if lastNorm = str "assistant" ∧ lastF.text = [] then
        if blocks ≠ [] then joinSep ['\n'] (blocks ++ [str "<|im_start|>assistant"])
        else str "<|im_start|>assistant"
      else joinSep ['\n'] blocks
  | none => joinSep ['\n'] blocks

-- ---------------------------------------------------------------------
-- Span dataclasses (holoware.py)
-- ---------------------------------------------------------------------

/-- The span tree (`TextSpan`, `EgoSpan`, `ContextResetSpan`, `ObjSpan`,
`SampleSpan`, `ClassSpan`).  Every span carries the base-class fields:
`uuid` (machine identifier — `uuid4()` by default, modelled as a
deterministic fresh-name supply `uuid4-<n>`, except that the ego/sampler
builder *overrides* it with the human `:id` suffix, possibly `""`),
`id` (human data-assignment handle, default `""`), `kargs`, `kwargs`.
`classS` bodies are nested sub-templates. -/
inductive Span where
  | textS (uuid id : Str) (kargs : List Str) (kwargs : List (Str × Str)) (txt : Str)
  | egoS (uuid id : Str) (kargs : List Str) (kwargs : List (Str × Str)) (ego : Str)
  | resetS (uuid id : Str) (kargs : List Str) (kwargs : List (Str × Str)) (train : Bool)
  | objS (uuid id : Str) (kargs : List Str) (kwargs : List (Str × Str)) (varIds : List Str)
  | sampleS (uuid id : Str) (kargs : List Str) (kwargs : List (Str × Str)) (fence : Str)
  | classS (uuid id : Str) (kargs : List Str) (kwargs : List (Str × Str))
      (className : Str) (body : Option (List Span))

/-- The machine identifier of a span. -/
def Span.uuid : Span → Str
  | .textS u _ _ _ _ => u
  | .egoS u _ _ _ _ => u
  | .resetS u _ _ _ _ => u
  | .objS u _ _ _ _ => u
  | .sampleS u _ _ _ _ => u
  | .classS u _ _ _ _ _ => u

/-- The human handle of a span. -/
def Span.id : Span → Str
  | .textS _ i _ _ _ => i
  | .egoS _ i _ _ _ => i
  | .resetS _ i _ _ _ => i
  | .objS _ i _ _ _ => i
  | .sampleS _ i _ _ _ => i
  | .classS _ i _ _ _ _ => i

-- ---------------------------------------------------------------------
-- Runtime state (Holophore) and external collaborators
-- ---------------------------------------------------------------------

/-- Assoc-list read (Python `dict` get). -/
def envGet : List (Str × Str) → Str → Option Str
  | [], _ => none
  | (k, v) :: rest, x => if k = x then some v else envGet rest x

/-- Assoc-list write, overwriting an existing key (Python `dict` set). -/
def envSet : List (Str × Str) → Str → Str → List (Str × Str)
  | [], k, v => [(k, v)]
  | (k', v') :: rest, k, v =>
      if k' = k then (k', v) :: rest else (k', v') :: envSet rest k v

/-- `span_fragments` read: the fragment handles recorded for a span uuid
(`FragList.EMPTY`, i.e. `[]`, when absent). -/
def sfGet : List (Str × List (Nat × Nat)) → Str → List (Nat × Nat)
  | [], _ => []
  | (k, hs) :: rest, u => if k = u then hs else sfGet rest u

/-- `span_fragments` append: record a new fragment handle for a span uuid. -/
def sfAppend : List (Str × List (Nat × Nat)) → Str → (Nat × Nat) → List (Str × List (Nat × Nat))
  | [], u, h => [(u, [h])]
  | (k, hs) :: rest, u, h =>
      if k = u then (k, hs ++ [h]) :: rest else (k, hs) :: sfAppend rest u h

/-- Runtime state: the `Holophore` plus the rollout it wraps.
`contexts` is the rollout (modelled from the spec: an ordered list of
contexts, fragments appended to the last).  `env` holds the string-valued
free variables (bound classes are modelled separately by `World.classes`).
`nsamples` counts sampler calls so the external sampler can be modelled as
a deterministic oracle over call indices. -/
structure Phore where
  contexts : List (List Frag)
  env : List (Str × Str)
  ego : Str
  spanFragments : List (Str × List (Nat × Nat))
  errors : Nat
  nsamples : Nat
  deriving DecidableEq, Repr

/-- The external collaborators of one evaluation:
* `sampler n` is the string returned by the `n`-th `sample()` call
  (`[]` models both `None` and the empty string, the two falsy failures);
* `classes name` resolves a `Class` span: `none` = not found in `env` nor
  registry; `some none` = a bound object without `__holo__` (its span must
  carry a body); `some (some r)` = `__holo__` returns `r` (with `[]`
  modelling the falsy `None`/`""` returns, which append nothing).
  Constructor, `__holo_init__` and `__holo_end__` hooks are user code
  outside the spec's scope and are modelled as effect-free. -/
structure World where
  sampler : Nat → Str
  classes : Str → Option (Option Str)

/-- Fresh evaluation state over an initial environment. -/
def initPhore (env : List (Str × Str)) : Phore :=
  { contexts := [], env := env, ego := str "system",
    spanFragments := [], errors := 0, nsamples := 0 }

/-- Modelled from the spec: `Rollout.add_frag` appends to the active (last)
context, creating one when the rollout is empty.  Returns the new context
list and the `(context index, fragment index)` handle of the appended
fragment. -/
def appendLastCtx (ctxs : List (List Frag)) (f : Frag) : List (List Frag) × Nat × Nat :=
  match ctxs with
  | [] => ([[f]], 0, 0)
  | [c] => ([c ++ [f]], 0, c.length)
  | c :: rest =>
      let r := appendLastCtx rest f
      (c :: r.1, r.2.1 + 1, r.2.2)

/-- `Holophore.add_frag`: append a fragment under the current ego and record
its handle in `span_fragments` under the active span's uuid `u`. -/
def addFrag (ph : Phore) (u : Str) (src : SrcKind) (ft : FragType) (t : Str) : Phore :=
  let fr : Frag := ⟨t, some ph.ego, ft, src⟩
  let r := appendLastCtx ph.contexts fr
  { ph with contexts := r.1, spanFragments := sfAppend ph.spanFragments u (r.2.1, r.2.2) }

/-- Modelled from the spec: `Rollout.new_context` appends a fresh context. -/
def newContext (ph : Phore) : Phore :=
  { ph with contexts := ph.contexts ++ [[]] }

-- ---------------------------------------------------------------------
-- The auto-spacing tag pattern (holoware.py `tag_pattern`)
-- ---------------------------------------------------------------------

/-- Python `\w` (ASCII fragment). -/
def isWordChar (c : Char) : Bool := c.isAlphanum || c = '_'

/-- Is `p` a contiguous substring of `s`? -/
def isInfixOfL (p s : Str) : Bool := s.tails.any fun t => p.isPrefixOf t

/-- Does `<obj\s+id=.*?>` (DOTALL) match at the start of `t`? -/
def objAltAt (t : Str) : Bool :=
  (str "<obj").isPrefixOf t ∧
    (let t1 := t.drop 4
     let ws := t1.takeWhile isPySpace
     ws ≠ [] ∧ (str "id=").isPrefixOf (t1.drop ws.length) ∧
       (t1.drop (ws.length + 3)).contains '>')

/-- Does `<(\w+)[^>]*>.*?</\1>` (DOTALL) match at the start of `t`?
The group `\w+` may bind any nonempty prefix of the word run after `<`;
`[^>]*` then forces the open tag to close at the first following `>`;
the lazy `.*?` requires the back-referenced close tag somewhere after. -/
def xmlAltAt (t : Str) : Bool :=
  match t with
  | '<' :: rest =>
      let run := rest.takeWhile isWordChar
      (List.range run.length).any fun l0 =>
        let w := run.take (l0 + 1)
        let after := rest.drop (l0 + 1)
        let nonGt := after.takeWhile (· ≠ '>')
        decide (nonGt.length < after.length) &&
          isInfixOfL (str "</" ++ w ++ str ">") (after.drop (nonGt.length + 1))
  | _ => false

/-- `re.search` of `tag_pattern` (`<(\w+)[^>]*>.*?</\1>|<obj\s+id=.*?>`,
DOTALL): some suffix position matches one of the alternatives. -/
def tagSearch (s : Str) : Bool :=
  s.tails.any fun t => xmlAltAt t || objAltAt t

-- ---------------------------------------------------------------------
-- optimize_block (the auto-spacing pass inside Holoware.__call__)
-- ---------------------------------------------------------------------

/-- Replace the element at an index (Python in-place item mutation). -/
def modifyIdx {α : Type} : List α → Nat → (α → α) → List α
  | [], _, _ => []
  | x :: xs, 0, g => g x :: xs
  | x :: xs, n + 1, g => x :: modifyIdx xs n g

/-- Mutate the text of the fragment a handle points to. -/
def mutateFragText (ph : Phore) (h : Nat × Nat) (g : Str → Str) : Phore :=
  { ph with contexts :=
      modifyIdx ph.contexts h.1 (fun ctx =>
        modifyIdx ctx h.2 (fun fr => { fr with text := g fr.text })) }

/-- The concatenated current text of a span's fragments
(`FragList.string`, read through the recorded handles). -/
def fragString (ph : Phore) (hs : List (Nat × Nat)) : Str :=
  strConcat (hs.map fun h =>
    match ph.contexts.get? h.1 with
    | some ctx => match ctx.get? h.2 with
                  | some fr => fr.text
                  | none => []
    | none => [])

/-- `optimize_block(j)`: no-op for `j < 2`; otherwise looks at the fragments
of spans `j-2`, `j-1`, `j`, and when the *stripped* middle string matches
`tag_pattern`, prepends `3 - lc` and appends `3 - rc` newlines to the middle
span's first and last fragment.  The source computes `count_head` with the
same `rstrip`-based body as `count_tail` and applies both to already
stripped strings, so `lc = rc = 0` whenever the pass fires. -/
def optimizeBlockAt (all : List Span) (j : Nat) (ph : Phore) : Phore :=
  if j < 2 then ph
  else
    match all.get? (j - 2), all.get? (j - 1), all.get? j with
    | some sp1, some sp2, some sp3 =>
        let f1 := sfGet ph.spanFragments sp1.uuid
        let f2 := sfGet ph.spanFragments sp2.uuid
        let f3 := sfGet ph.spanFragments sp3.uuid
        let s1 := pyStrip (fragString ph f1)
        let s2 := pyStrip (fragString ph f2)
        let s3 := pyStrip (fragString ph f3)
        let lc := countTailNL s1 + countTailNL s2
        let rc := countTailNL s2 + countTailNL s3
        if tagSearch s2 then
          match f2, f2.getLast? with
          | h0 :: _, some hN =>
              let ph' := mutateFragText ph h0 (fun t => List.replicate (3 - lc) '\n' ++ t)
              mutateFragText ph' hN (fun t => t ++ List.replicate (3 - rc) '\n')
          | _, _ => ph
        else ph
    | _, _, _ => ph

/-- `optimize_think_tags(i)`: defined inside `Holoware.__call__` but never
invoked there; modelled here on the span's fragment snapshot for the record.
It collapses `<think>\s*\n*\s*</think>` occurrences and replaces the span's
fragments by a single FROZEN fragment with `ego = None`. -/
def optimizeThinkTagsFrags (f : List Frag) (collapsed : Str) : List Frag :=
  if f = [] then f
  else [⟨collapsed, none, FragType.frozen, SrcKind.outside⟩]

-- ---------------------------------------------------------------------
-- Span handlers (holoware_handlers.py)
-- ---------------------------------------------------------------------

/-- `SpanHandler.TextSpan`: one FROZEN fragment under the current ego. -/
def handleText (ph : Phore) (u : Str) (t : Str) : Phore :=
  addFrag ph u .textSrc .frozen t

/-- `SpanHandler.ObjSpan`: for each `var_id` present in `env`, append the
four FROZEN fragments `<obj id=…>`, value, `</obj>`, `"\n"`.  The source
loop has no `break`: every present `var_id` emits. -/
def handleObj (ph : Phore) (u : Str) : List Str → Phore
  | [] => ph
  | v :: vs =>
      match envGet ph.env v with
      | some value =>
          let ph1 := addFrag ph u .objSrc .frozen (str "<obj id=" ++ v ++ str ">")
          let ph2 := addFrag ph1 u .objSrc .frozen value
          let ph3 := addFrag ph2 u .objSrc .frozen (str "</obj>")
          let ph4 := addFrag ph3 u .objSrc .frozen (str "\n")
          handleObj ph4 u vs
      | none => handleObj ph u vs

/-- `f"<{fence}>"`, the opening fence tag. -/
def fenceOpen (fence : Str) : Str := '<' :: fence ++ ['>']

/-- `f"</{fence}>"`, the closing fence tag. -/
def fenceClose (fence : Str) : Str := str "</" ++ fence ++ ['>']

/-- The env payload computed by `SpanHandler.SampleSpan` for `env[span.id]`:
start from the raw sample; with a fence, strip a leading `<fence>` and a
trailing `</fence>` (the both-present branch uses the Python slice
`payload[len(open):-len(close)]`); finally `.strip()`. -/
def codePayload (fence s : Str) : Str :=
  let payload :=
    if fence = [] then s
    else
      let openT := fenceOpen fence
      let closeT := fenceClose fence
      if openT.isPrefixOf s ∧ closeT.isSuffixOf s then
        (s.take (s.length - closeT.length)).drop openT.length
      else
        let p1 := if closeT.isSuffixOf s then s.take (s.length - closeT.length) else s
        if openT.isPrefixOf p1 then p1.drop openT.length else p1
  pyStrip payload

/-- `SpanHandler.SampleSpan`: optional FROZEN opening fence tag, external
`sample()` call (a falsy result logs and returns early — the `errors`
counter is *not* touched), closing-fence repair, one REINFORCE fragment,
and the `env[span.id]` assignment when the span carries an id.
The computed `stop_sequences` only parameterize the external sampler and
are not modelled. -/
def handleSample (w : World) (ph : Phore) (u id fence : Str) : Phore :=
  let ph0 := if fence ≠ [] then addFrag ph u .fenceSrc .frozen (fenceOpen fence) else ph
  let s := w.sampler ph0.nsamples
  let ph1 := { ph0 with nsamples := ph0.nsamples + 1 }
  if s = [] then ph1
  else
    let closeT := fenceClose fence
    let textOut := if fence ≠ [] then (if closeT.isSuffixOf s then s else s ++ closeT) else s
    let ph2 := addFrag ph1 u .sampleSrc .reinforce textOut
    if id ≠ [] then { ph2 with env := envSet ph2.env id (codePayload fence s) } else ph2

-- ---------------------------------------------------------------------
-- Holoware.__call__ (phases 1-3) and ClassSpan dispatch
-- ---------------------------------------------------------------------

/-- Evaluation-time failures. -/
inductive EErr where
  | classNotFound (name : Str)
  | emptyClassSpan (name : Str)
  | evaluationFailed (n : Nat)
  | fuel
  deriving DecidableEq, Repr

/-- Phase 1 (instantiation): resolve every `Class` span's class, failing
with `classNotFound` when neither `env` nor the registry has it.
Instantiation and `__holo_init__` are external user code (no-ops here). -/
def phase1 (w : World) : List Span → Option EErr
  | [] => none
  | Span.classS _ _ _ _ name _ :: rest =>
      if (w.classes name).isNone then some (.classNotFound name) else phase1 w rest
  | _ :: rest => phase1 w rest

/-- `SpanHandler.handle` plus the `ClassSpan` dispatch: handle one span.
`evalBody` evaluates the sub-template of a `Class` span with a body
(`Holoware.__call__` one nesting level down). -/
def stepSpan (evalBody : List Span → Phore → Except EErr Phore) (w : World)
    (ph : Phore) : Span → Except EErr Phore
  | .textS u _ _ _ t => .ok (handleText ph u t)
  | .egoS _ _ _ _ r => .ok { ph with ego := r }
  | .resetS _ _ _ _ _ => .ok { newContext ph with ego := str "system" }
  | .objS u _ _ _ vs => .ok (handleObj ph u vs)
  | .sampleS u id _ _ fence => .ok (handleSample w ph u id fence)
  | .classS u _ _ _ name body =>
      match w.classes name with
      | none => .error (.classNotFound name)
      | some (some r) =>
          .ok (if r ≠ [] then addFrag ph u .clsSrc .frozen r else ph)
      | some none =>
          match body with
          | some b => evalBody b ph
          | none => .error (.emptyClassSpan name)

/-- Phase 2 (main walk): dispatch each span through `SpanHandler.handle`,
then run `optimize_block(i - 1)`.  `all` is the full span list (for the
optimize windows), `i` the index of the head of `rest` in `all`. -/
def runSpansWith (evalBody : List Span → Phore → Except EErr Phore)
    (w : World) (all : List Span) :
    List Span → Nat → Phore → Except EErr Phore
  | [], _, ph =>
      if ph.errors > 0 then .error (.evaluationFailed ph.errors) else .ok ph
  | sp :: rest, i, ph =>
      match stepSpan evalBody w ph sp with
      | .error e => .error e
      | .ok ph' => runSpansWith evalBody w all rest (i + 1) (optimizeBlockAt all (i - 1) ph')

/-- `Holoware.__call__`: phase 1, then the main walk (which ends by raising
`EvaluationFailed` iff `errors > 0`), then the `__holo_end__` hooks (external
user code, modelled effect-free).  `d` is structural fuel bounding the
nesting depth of `Class` bodies. -/
def evalWare (w : World) : Nat → List Span → Phore → Except EErr Phore
  | 0, _, _ => .error .fuel
  | d + 1, spans, ph =>
      match phase1 w spans with
      | some e => .error e
      | none => runSpansWith (evalWare w d) w spans spans 0 ph

-- ---------------------------------------------------------------------
-- Parser (holoware_parser.py)
-- ---------------------------------------------------------------------

/-- Split a string on a separator character, keeping empty pieces
(Python `str.split(c)`). -/
def splitOnChar (c : Char) : Str → List Str
  | [] => [[]]
  | x :: rest =>
      if x = c then [] :: splitOnChar c rest
      else
        match splitOnChar c rest with
        | l :: ls => (x :: l) :: ls
        | [] => [[x]]

/-- `filter_comments`: drop every line whose stripped form starts with `#`,
join the survivors with newlines. -/
def filterComments (content : Str) : Str :=
  joinSep ['\n']
    ((splitOnChar '\n' content).filter fun line =>
      ¬ (str "#").isPrefixOf (pyStrip line))

/-- Parse-time failures (`ValueError`s of the source).  `quoteError` covers
both shlex messages ("No closing quotation" / "No escaped character"). -/
inductive PErr where
  | unclosedTag
  | quoteError
  | emptyAngleAttr
  | noRoleForSpan
  | fuel
  deriving DecidableEq, Repr

/-- `shlex` default whitespace (`" \t\r\n"`). -/
def shlexWS (c : Char) : Bool := c = ' ' ∨ c = '\t' ∨ c = '\r' ∨ c = '\n'

/-- Lexer states of the POSIX `shlex` scanner. -/
inductive ShState where
  | out | inSingle | inDouble | escOut | escDouble

/-- `shlex.split` (POSIX mode, whitespace-split): whitespace separates
tokens; single quotes are fully literal; inside double quotes a backslash
escapes only `"` and `\` (otherwise both characters are kept); outside
quotes a backslash escapes any character.  A dangling quote or escape
raises. -/
def shlexGo : ShState → Str → Str → Bool → Except PErr (List Str)
  | .out, [], tok, has => .ok (if has then [tok] else [])
  | .out, c :: rest, tok, has =>
      if shlexWS c then
        if has then (shlexGo .out rest [] false).map (tok :: ·)
        else shlexGo .out rest [] false
      else if c = '\'' then shlexGo .inSingle rest tok true
      else if c = '"' then shlexGo .inDouble rest tok true
      else if c = '\\' then shlexGo .escOut rest tok has
      else shlexGo .out rest (tok ++ [c]) true
  | .inSingle, [], _, _ => .error .quoteError
  | .inSingle, c :: rest, tok, has =>
      if c = '\'' then shlexGo .out rest tok has
      else shlexGo .inSingle rest (tok ++ [c]) has
  | .inDouble, [], _, _ => .error .quoteError
  | .inDouble, c :: rest, tok, has =>
      if c = '"' then shlexGo .out rest tok has
      else if c = '\\' then shlexGo .escDouble rest tok has
      else shlexGo .inDouble rest (tok ++ [c]) has
  | .escOut, [], _, _ => .error .quoteError
  | .escOut, c :: rest, tok, _ => shlexGo .out rest (tok ++ [c]) true
  | .escDouble, [], _, _ => .error .quoteError
  | .escDouble, c :: rest, tok, has =>
      if c = '"' ∨ c = '\\' then shlexGo .inDouble rest (tok ++ [c]) has
      else shlexGo .inDouble rest (tok ++ ['\\', c]) has

/-- `parse_span_tag`: shlex-split the tag body; the first token is the base;
parts containing `=` become kwargs (dict assignment, last write wins), parts
starting with `<>` become the `"<>"` kwarg (empty value raises), the rest
are positional kargs. -/
def parseSpanTag (tag : Str) : Except PErr (Str × List Str × List (Str × Str)) :=
  match shlexGo .out tag [] false with
  | .error e => .error e
  | .ok [] => .ok ([], [], [])
  | .ok (base :: parts) =>
      let rec go : List Str → List Str → List (Str × Str) →
          Except PErr (Str × List Str × List (Str × Str))
        | [], ks, kws => .ok (base, ks, kws)
        | part :: rest, ks, kws =>
            if part.contains '=' then
              let key := part.takeWhile (· ≠ '=')
              let val := (part.dropWhile (· ≠ '=')).drop 1
              go rest ks (envSet kws key val)
            else if (str "<>").isPrefixOf part then
              if 2 < part.length then go rest ks (envSet kws (str "<>") (part.drop 2))
              else .error .emptyAngleAttr
            else go rest (ks ++ [part]) kws
      go parts [] []

/-- `is_ego_or_sampler`. -/
def isEgoOrSampler (base : Str) (kwargs : List (Str × Str)) : Bool :=
  base = str "o_o" ∨ base = str "@_@" ∨ base = str "x_x" ∨
    (envGet kwargs (str "fence")).isSome ∨ (envGet kwargs (str "<>")).isSome

/-- `is_context_reset`: the nine reset sigils. -/
def isContextReset (base : Str) : Bool :=
  base = str "+++" ∨ base = str "===" ∨ base = str "---" ∨ base = str "^^^" ∨
  base = str "###" ∨ base = str "@@@" ∨ base = str "\"\"\"" ∨ base = str "***" ∨
  base = str "%%%"

/-- `EGO_MAP.get(ego, ego)`. -/
def egoMap (e : Str) : Str :=
  if e = str "o_o" then str "user"
  else if e = str "@_@" then str "assistant"
  else if e = str "x_x" then str "system"
  else e

/-- `base.split(":", 1)`: the ego/sampler base and the optional `:id`
suffix (`""` when there is no colon). -/
def splitFirstColon (base : Str) : Str × Str :=
  if base.contains ':' then
    (base.takeWhile (· ≠ ':'), (base.dropWhile (· ≠ ':')).drop 1)
  else (base, [])

/-- The `uuid4()` default, modelled as a deterministic fresh-name supply. -/
def freshUuid (n : Nat) : Str := ("uuid4-" ++ toString n).data

/-- `_build_ego_or_sampler`: split the `:id` suffix off the base; emit an
`EgoSpan` whose *uuid* is the suffix; when a fence is present (`<>` kwarg if
nonempty, else `fence=` kwarg) also emit a `SampleSpan` carrying the suffix
as both uuid and id, the kargs, and the non-fence kwargs. -/
def buildEgoOrSampler (base : Str) (kargs : List Str) (kwargs : List (Str × Str)) :
    List Span :=
  let p := splitFirstColon base
  let egoSpan := Span.egoS p.2 [] [] [] (egoMap p.1)
  let samplerKwargs := kwargs.filter fun kv => kv.1 ≠ str "<>" ∧ kv.1 ≠ str "fence"
  let v1 := (envGet kwargs (str "<>")).getD []
  let fence := if v1 ≠ [] then v1 else (envGet kwargs (str "fence")).getD []
  egoSpan ::
    (if kargs ≠ [] ∨ samplerKwargs ≠ [] ∨ fence ≠ [] then
      (if fence = [] then []
       else [Span.sampleS p.2 p.2 kargs samplerKwargs fence])
     else [])

/-- `Span.set_args` applied by `_build_class`: kwargs whose keys are
`ClassSpan` dataclass field names are assigned onto those fields (the
string-typed `uuid`/`id`/`class_name` assignments are modelled; assignments
that would corrupt the list/dict/body fields with strings are not, though
those keys are still removed from the remaining kwargs). -/
def buildClass (uuidN : Nat) (base : Str) (kargs : List Str)
    (kwargs : List (Str × Str)) : Span :=
  let fields := [str "uuid", str "id", str "kargs", str "kwargs", str "class_name", str "body"]
  let remaining := kwargs.filter fun kv => ¬ fields.contains kv.1
  Span.classS ((envGet kwargs (str "uuid")).getD (freshUuid uuidN))
    ((envGet kwargs (str "id")).getD []) kargs remaining
    ((envGet kwargs (str "class_name")).getD base) none

/-- `_build_obj` with its `set_args` call (same field-name convention as
`buildClass`): `var_ids` is the base split on `|`, each piece stripped. -/
def buildObj (uuidN : Nat) (base : Str) (kargs : List Str)
    (kwargs : List (Str × Str)) : Span :=
  let varIds := (splitOnChar '|' base).map pyStrip
  let fields := [str "uuid", str "id", str "kargs", str "kwargs", str "var_ids"]
  let remaining := kwargs.filter fun kv => ¬ fields.contains kv.1
  Span.objS ((envGet kwargs (str "uuid")).getD (freshUuid uuidN))
    ((envGet kwargs (str "id")).getD []) kargs remaining varIds

/-- `build_span`: strip the tag body; empty tags emit nothing; otherwise lex
and dispatch through the grammar (ego/sampler, context reset, then
uppercase-initial → class, else obj).  Returns the spans and the advanced
fresh-uuid counter. -/
def buildSpan (uuidN : Nat) (spantext : Str) : Except PErr (List Span × Nat) :=
  let tagContent := pyStrip spantext
  if tagContent = [] then .ok ([], uuidN)
  else
    match parseSpanTag tagContent with
    | .error e => .error e
    | .ok (base, kargs, kwargs) =>
        if isEgoOrSampler base kwargs then .ok (buildEgoOrSampler base kargs kwargs, uuidN)
        else if isContextReset base then
          .ok ([Span.resetS (freshUuid uuidN) [] [] [] (base = str "+++")], uuidN + 1)
        else
          match base with
          | [] => .ok ([], uuidN)
          | c :: _ =>
              if c.isUpper then .ok ([buildClass uuidN base kargs kwargs], uuidN + 1)
              else .ok ([buildObj uuidN base kargs kwargs], uuidN + 1)

-- Parser driver state -------------------------------------------------

/-- Parser state: accumulated spans, current ego (`None` initially; resets
clear it back to `None`), and the fresh-uuid counter. -/
structure PState where
  spans : List Span
  ego : Option Str
  uuidN : Nat

/-- Python truthiness of `self.ego` (`None` and `""` are falsy). -/
def egoTruthy : Option Str → Bool
  | some e => e ≠ []
  | none => false

/-- Is this a `TextSpan`? -/
def isTextSpan : Span → Bool
  | .textS _ _ _ _ _ => true
  | _ => false

/-- The text of a `TextSpan` (`[]` otherwise). -/
def textOf : Span → Str
  | .textS _ _ _ _ t => t
  | _ => []

/-- Append text onto a `TextSpan` (text-span merging). -/
def appendTextTo (extra : Str) : Span → Span
  | .textS u i ka kw t => .textS u i ka kw (t ++ extra)
  | sp => sp

/-- Replace the text of a `TextSpan`. -/
def setText (t : Str) : Span → Span
  | .textS u i ka kw _ => .textS u i ka kw t
  | sp => sp

/-- Set the body of a `ClassSpan`. -/
def setBody (b : Option (List Span)) : Span → Span
  | .classS u i ka kw n _ => .classS u i ka kw n b
  | sp => sp

/-- The scan of `_add_implicit_ego_if_needed`: walk the spans; the first
`TextSpan` decides (insert iff its stripped text is nonempty) and stops the
scan; an `EgoSpan` or `ContextResetSpan` seen first forbids insertion. -/
def scanImplicit : List Span → Bool
  | [] => false
  | Span.textS _ _ _ _ t :: _ => pyStrip t ≠ []
  | Span.egoS _ _ _ _ _ :: _ => false
  | Span.resetS _ _ _ _ _ :: _ => false
  | _ :: rest => scanImplicit rest

/-- `_add_implicit_ego_if_needed`: when no (truthy) ego is set and the scan
approves, insert `EgoSpan(ego='system')` at the front. -/
def addImplicitEgo (st : PState) : PState :=
  if egoTruthy st.ego then st
  else if scanImplicit st.spans then
    { st with
      spans := Span.egoS (freshUuid st.uuidN) [] [] [] (str "system") :: st.spans,
      ego := some (str "system"), uuidN := st.uuidN + 1 }
  else st

/-- Does a span require an ego (`SampleSpan`, `ObjSpan`, `ClassSpan`)? -/
def needsEgo : Span → Bool
  | .sampleS _ _ _ _ _ => true
  | .objS _ _ _ _ _ => true
  | .classS _ _ _ _ _ _ => true
  | _ => false

/-- `_add_span`: implicit-system insertion for content spans (raising
`NoRoleForSpan` when impossible), consecutive-ego dedup, reset clearing the
ego, consecutive text merging, leading-whitespace stripping of text after a
non-text span, and dropping of whitespace-only text. -/
def addSpan (st0 : PState) (span : Span) : Except PErr PState :=
  let last := st0.spans.getLast?
  match
    (if ¬ egoTruthy st0.ego ∧ needsEgo span then
      let st' := addImplicitEgo st0
      if ¬ egoTruthy st'.ego then .error .noRoleForSpan else .ok st'
    else .ok st0 : Except PErr PState) with
  | .error e => .error e
  | .ok st =>
      match span with
      | .egoS _ _ _ _ e =>
          if st.ego = some e then .ok st
          else .ok { st with spans := st.spans ++ [span], ego := some e }
      | .resetS _ _ _ _ _ =>
          .ok { st with spans := st.spans ++ [span], ego := none }
      | _ =>
          if isTextSpan span then
            match last with
            | some l =>
                if isTextSpan l then
                  .ok { st with
                        spans := modifyIdx st.spans (st.spans.length - 1)
                                   (appendTextTo (textOf span)) }
                else
                  let t := pyLStrip (textOf span)
                  if pyStrip t = [] then .ok st
                  else .ok { st with spans := st.spans ++ [setText t span] }
            | none =>
                if pyStrip (textOf span) = [] then .ok st
                else .ok { st with spans := st.spans ++ [span] }
          else .ok { st with spans := st.spans ++ [span] }

/-- Add a list of built spans in order (`_parse_span`'s loop). -/
def addSpans : PState → List Span → Except PErr PState
  | st, [] => .ok st
  | st, sp :: rest =>
      match addSpan st sp with
      | .error e => .error e
      | .ok st' => addSpans st' rest

/-- Fuelled scanner for `str.replace`; one fuel unit per consumed character,
so `fuel = s.length` always suffices. -/
def replaceSubGo (pat rep : Str) : Nat → Str → Str
  | 0, s => s
  | fuel + 1, s =>
      match s with
      | [] => []
      | c :: rest =>
          if pat ≠ [] ∧ pat.isPrefixOf (c :: rest) then
            rep ++ replaceSubGo pat rep fuel (rest.drop (pat.length - 1))
          else c :: replaceSubGo pat rep fuel rest

/-- `str.replace(pat, rep)`: left-to-right, non-overlapping. -/
def replaceSub (pat rep : Str) (s : Str) : Str := replaceSubGo pat rep s.length s

/-- `_parse_text`: decode `\\` → `\` then `\<|` → `<|`, drop empty results,
and `_add_span` a `TextSpan` (which draws a fresh uuid). -/
def parseTextStep (st : PState) (text : Str) : Except PErr PState :=
  if text = [] then .ok st
  else
    let processed := replaceSub (str "\\<|") (str "<|") (replaceSub (str "\\\\") (str "\\") text)
    if processed = [] then .ok st
    else addSpan { st with uuidN := st.uuidN + 1 }
           (Span.textS (freshUuid st.uuidN) [] [] [] processed)

/-- `str.find(pat, start)`: least index ≥ `start` where `pat` occurs. -/
def findSub (code pat : Str) (start : Nat) : Option Nat :=
  ((List.range (code.length + 1)).filter fun i =>
    decide (start ≤ i) && pat.isPrefixOf (code.drop i)).head?

/-- The number of consecutive backslashes immediately before `idx`. -/
def countBackslashesBefore (code : Str) (idx : Nat) : Nat :=
  ((code.take idx).reverse.takeWhile (· = '\\')).length

/-- `_find_next_span_start`: first unescaped `<|` at or after `pos` (a `<|`
is escaped iff preceded by an odd number of backslashes). -/
def findNextFrom (code : Str) : Nat → Nat → Option Nat
  | 0, _ => none
  | fuel + 1, pos =>
      match findSub code (str "<|") pos with
      | none => none
      | some idx =>
          if countBackslashesBefore code idx % 2 = 1 then
            findNextFrom code fuel (idx + 1)
          else some idx

/-- `code[a:b]`. -/
def slice (code : Str) (a b : Nat) : Str := (code.take b).drop a

/-- `str.splitlines(keepends=True)` (newline-only model). -/
def splitLinesKeepAux : Str → Str → List Str
  | [], acc => if acc = [] then [] else [acc]
  | '\n' :: rest, acc => (acc ++ ['\n']) :: splitLinesKeepAux rest []
  | c :: rest, acc => splitLinesKeepAux rest (acc ++ [c])

/-- `str.splitlines(keepends=True)`. -/
def splitLinesKeep (s : Str) : List Str := splitLinesKeepAux s []

/-- Longest common prefix of two strings. -/
def commonPrefix : Str → Str → Str
  | a :: as, b :: bs => if a = b then a :: commonPrefix as bs else []
  | _, _ => []

/-- `textwrap.dedent`: blank out whitespace-only lines, compute the common
`[ \t]*` margin of the remaining lines, and strip it where present. -/
def dedent (text : Str) : Str :=
  let lines := splitOnChar '\n' text
  let lines := lines.map fun l =>
    if l ≠ [] ∧ l.all (fun c => c = ' ' ∨ c = '\t') then [] else l
  let indents := lines.filterMap fun l =>
    let ind := l.takeWhile (fun c => c = ' ' ∨ c = '\t')
    if ind.length < l.length then some ind else none
  let margin := match indents with
    | [] => []
    | i :: is => is.foldl commonPrefix i
  let lines := if margin = [] then lines
    else lines.map fun l => if margin.isPrefixOf l then l.drop margin.length else l
  joinSep ['\n'] lines

/-- Collection loop of `_read_indented_block_content`: take lines that are
whitespace-only or indented by at least `indentation` spaces, tracking the
consumed position. -/
def collectBlockLines (indentation : Nat) : List Str → Nat → List Str → (List Str × Nat)
  | [], cur, acc => (acc, cur)
  | line :: rest, cur, acc =>
      if pyStrip line = [] then collectBlockLines indentation rest (cur + line.length) (acc ++ [line])
      else if indentation ≤ line.length - (line.dropWhile (· = ' ')).length then
        collectBlockLines indentation rest (cur + line.length) (acc ++ [line])
      else (acc, cur)

/-- `_read_indented_block_content`: skip one leading blank line, measure the
space indentation of the first line (zero → no block), then collect. -/
def readIndentedBlockContent (code : Str) (startPos : Nat) : Option Str × Nat :=
  let lines := splitLinesKeep (code.drop startPos)
  match lines with
  | [] => (none, startPos)
  | first0 :: rest0 =>
      let (startPos1, lines1) :=
        if pyStrip first0 = [] then (startPos + first0.length, rest0)
        else (startPos, first0 :: rest0)
      match lines1 with
      | [] => (none, startPos1)
      | first :: _ =>
          let indentation := first.length - (first.dropWhile (· = ' ')).length
          if indentation = 0 then (none, startPos1)
          else
            let r := collectBlockLines indentation lines1 startPos1 []
            if r.1 = [] then (none, startPos1)
            else (some (strConcat r.1), r.2)

/-- `_finalize_text_span`'s loop, with Python's `enumerate`-over-mutating-
list semantics: the index advances every iteration even after a `pop`.
`lastIdx` models the `last_span` object reference (always an index < `i`
that pops cannot shift). -/
def finTS : Nat → List Span → Nat → Option Nat → List Span
  | 0, lst, _, _ => lst
  | fuel + 1, lst, i, lastIdx =>
      match lst.get? i with
      | none => lst
      | some span =>
          if isTextSpan span then
            match lastIdx with
            | some li =>
                if (match lst.get? li with
                    | some l => isTextSpan l
                    | none => false) then
                  finTS fuel ((modifyIdx lst li (appendTextTo (textOf span))).eraseIdx i)
                    (i + 1) lastIdx
                else finTS fuel lst (i + 1) (some i)
            | none => finTS fuel lst (i + 1) (some i)
          else finTS fuel lst (i + 1) (some i)

/-- The post-loop `_finalize_text_span` (the `start_with_system` implicit
insertion is skipped: both the top-level and block parsers are constructed
with `start_with_system=False`). -/
def finalizeSt (st : PState) : PState :=
  { st with spans := finTS (st.spans.length + 1) st.spans 0 none }

/-- `_parse_indented_block`: read the block, dedent, and when nonempty parse
it with a fresh parser (no inherited ego) — `parseSub` runs that fresh
parser.  Returns the optional body, the position to resume at, and the
advanced uuid counter. -/
def parseIndentedBlockWith (parseSub : Str → Nat → Except PErr PState)
    (code : Str) (startPos uuidN : Nat) :
    Except PErr (Option (List Span) × Nat × Nat) :=
  match readIndentedBlockContent code startPos with
  | (none, _) => .ok (none, startPos, uuidN)
  | (some blockContent, endPos) =>
      let ded := dedent blockContent
      if pyStrip ded = [] then .ok (none, endPos, uuidN)
      else
        match parseSub ded uuidN with
        | .error e => .error e
        | .ok st => .ok (some st.spans, endPos, st.uuidN)

/-- The scanner loop of `HolowareParser.parse` (plus the trailing
`_finalize_text_span`): find the next unescaped tag, emit the preceding
text, extract and build the tag (`UnclosedTag` when `|>` is missing), add
the spans, and attach an indented body when the last span is a class.
One fuel unit per loop iteration or sub-parser entry. -/
def parseLoop : Nat → Str → Nat → PState → Except PErr PState
  | 0, _, _, _ => .error .fuel
  | fuel + 1, code, pos, st =>
    if pos < code.length then
      match findNextFrom code (code.length + 1) pos with
      | none =>
          match parseTextStep st (code.drop pos) with
          | .error e => .error e
          | .ok st' => .ok (finalizeSt st')
      | some npos =>
          match (if pos < npos then parseTextStep st (slice code pos npos) else .ok st) with
          | .error e => .error e
          | .ok st1 =>
              match findSub code (str "|>") (npos + 2) with
              | none => .error .unclosedTag
              | some e =>
                  let spantext := slice code (npos + 2) e
                  let pos1 := e + 2
                  match buildSpan st1.uuidN spantext with
                  | .error er => .error er
                  | .ok r =>
                      match addSpans { st1 with uuidN := r.2 } r.1 with
                      | .error er => .error er
                      | .ok st2 =>
                          match st2.spans.getLast? with
                          | some (Span.classS _ _ _ _ _ _) =>
                              match parseIndentedBlockWith
                                  (fun ded n => parseLoop fuel ded 0 ⟨[], none, n⟩)
                                  code pos1 st2.uuidN with
                              | .error er => .error er
                              | .ok (obody, pos2, uuidN') =>
                                  match obody with
                                  | some b =>
                                      parseLoop fuel code pos2
                                        { st2 with
                                          spans := modifyIdx st2.spans (st2.spans.length - 1)
                                            (setBody (some b)),
                                          uuidN := uuidN' }
                                  | none =>
                                      parseLoop fuel code pos1 { st2 with uuidN := uuidN' }
                          | _ => parseLoop fuel code pos1 st2
    else .ok (finalizeSt st)

/-- `HolowareParser(code).parse()` for a root parser (as called by
`Holoware.parse`): filter comments, run the scanner loop, return the spans.
The fuel is a coarse upper bound on the total loop iterations; every
iteration consumes at least one character of its (sub)source. -/
def parse (source : Str) : Except PErr (List Span) :=
  let code := filterComments source
  match parseLoop ((code.length + 1) * (code.length + 1)) code 0 ⟨[], none, 0⟩ with
  | .error e => .error e
  | .ok st => .ok st.spans

-- ---------------------------------------------------------------------
-- Holoware.trained_contexts
-- ---------------------------------------------------------------------

/-- The loop of `Holoware.trained_contexts`: walk the spans with the
enumeration index `i` and the context counter `current`; a reset at `i > 0`
increments the counter; training resets record the counter. -/
def trainedGo : List Span → Nat → Nat → List Nat
  | [], _, _ => []
  | Span.resetS _ _ _ _ t :: rest, i, cur =>
      let cur' := if 0 < i then cur + 1 else cur
      (if t then [cur'] else []) ++ trainedGo rest (i + 1) cur'
  | _ :: rest, i, cur => trainedGo rest (i + 1) cur

/-- `Holoware.trained_contexts`. -/
def trainedContexts (spans : List Span) : List Nat := trainedGo spans 0 0

/-- The `train` flags of the reset spans, in encounter order. -/
def resetFlags : List Span → List Bool
  | [] => []
  | Span.resetS _ _ _ _ t :: rest => t :: resetFlags rest
  | _ :: rest => resetFlags rest

/-- Does the template begin with a reset span? -/
def beginsWithReset : List Span → Bool
  | Span.resetS _ _ _ _ _ :: _ => true
  | _ => false

/-- `trained_contexts` as the spec describes it: the index of the context
opened by the `j`-th encountered reset is `j` when an implicit initial
context precedes it, and `j - 1` (0-based from the start) when the template
begins with a reset; collect the indices of the training resets. -/
def specTrainedContexts (spans : List Span) : List Nat :=
  (resetFlags spans).enum.filterMap fun p =>
    if p.2 then some (if beginsWithReset spans then p.1 else p.1 + 1) else none

-- ---------------------------------------------------------------------
-- Shared concrete collaborators for the concrete theorems
-- ---------------------------------------------------------------------

/-- Does `s` match the shape `<think>\s*\n*\s*</think>` of the (never
invoked) collapsing pass — equivalently `"<think>"`, then whitespace only,
then `"</think>"`? -/
def thinkShape (s : Str) : Bool :=
  decide (15 ≤ s.length) && (s.take 7 == str "<think>") &&
    (s.drop (s.length - 8) == str "</think>") &&
    ((s.drop 7).take (s.length - 15)).all isPySpace

/-- A world whose sampler always fails (returns the falsy empty string)
and whose class registry is empty. -/
def wFail : World := ⟨fun _ => [], fun _ => none⟩

/-- A world whose sampler always returns `"x"`. -/
def wX : World := ⟨fun _ => str "x", fun _ => none⟩

-- ---------------------------------------------------------------------
-- Claim theorems
-- ---------------------------------------------------------------------

section Claims

/-- The indices assigned to a list of reset train-flags when the `j`-th
flag (0-based) receives index `k + j`: the common normal form of both the
code's loop and the spec's enumeration. -/
def flagsIdx : List Bool → Nat → List Nat
  | [], _ => []
  | b :: bs, k => (if b then [k] else []) ++ flagsIdx bs (k + 1)

/-- The code's loop on the spans after index 0 assigns index `cur + 1 + j`
to the `j`-th remaining reset. -/
theorem trainedGo_eq (rest : List Span) : ∀ i cur, 1 ≤ i →
    trainedGo rest i cur = flagsIdx (resetFlags rest) (cur + 1) := by
  induction rest with
  | nil => intro i cur _; simp [trainedGo, resetFlags, flagsIdx]
  | cons sp rest ih =>
      intro i cur hi
      cases sp with
      | resetS u id' ka kw t =>
          have h0 : (if 0 < i then cur + 1 else cur) = cur + 1 :=
            if_pos (by omega)
          simp only [trainedGo, h0, resetFlags, flagsIdx]
          rw [ih (i + 1) (cur + 1) (by omega)]
      | textS u id' ka kw t =>
          simp only [trainedGo, resetFlags]; exact ih (i + 1) cur (by omega)
      | egoS u id' ka kw e =>
          simp only [trainedGo, resetFlags]; exact ih (i + 1) cur (by omega)
      | objS u id' ka kw vs =>
          simp only [trainedGo, resetFlags]; exact ih (i + 1) cur (by omega)
      | sampleS u id' ka kw f =>
          simp only [trainedGo, resetFlags]; exact ih (i + 1) cur (by omega)
      | classS u id' ka kw n b =>
          simp only [trainedGo, resetFlags]; exact ih (i + 1) cur (by omega)

/-- The spec's enumeration of the flags, with index `k + j` for the `j`-th,
is `flagsIdx`. -/
theorem enum_filterMap_eq_flagsIdx (flags : List Bool) : ∀ n k,
    (flags.enumFrom n).filterMap
      (fun p => if p.2 then some (k + p.1) else none) = flagsIdx flags (k + n) := by
  induction flags with
  | nil => intro n k; simp [flagsIdx]
  | cons b bs ih =>
      intro n k
      simp only [List.enumFrom_cons, List.filterMap_cons, flagsIdx]
      cases b with
      | true =>
          simp only [if_pos rfl]
          have := ih (n + 1) k
          simp only [show k + (n + 1) = k + n + 1 by omega] at this
          rw [this]
          rfl
      | false =>
          simp only [if_neg (show ¬(false = true) by decide)]
          have := ih (n + 1) k
          simp only [show k + (n + 1) = k + n + 1 by omega] at this
          rw [this]
          rfl

/-- C8: `trained_contexts` equals the list of indices i of contexts such
that the i-th encountered Reset span (with the implicit initial context
counted as index 0 when the template begins with a Reset) has train=true;
in particular a template starting with `<|+++|>` contributes index 0. -/
theorem c8_trained_contexts (spans : List Span) :
    trainedContexts spans = specTrainedContexts spans := by
  have hspec : ∀ sps, specTrainedContexts sps =
      flagsIdx (resetFlags sps) (if beginsWithReset sps then 0 else 1) := by
    intro sps
    unfold specTrainedContexts
    cases hb : beginsWithReset sps with
    | true =>
        have h := enum_filterMap_eq_flagsIdx (resetFlags sps) 0 0
        simp only [Nat.add_zero, Nat.zero_add] at h
        simp only [eq_self_iff_true, if_true]
        rw [show (resetFlags sps).enum = List.enumFrom 0 (resetFlags sps) from rfl]
        exact h
    | false =>
        have h := enum_filterMap_eq_flagsIdx (resetFlags sps) 0 1
        simp only [Nat.add_zero] at h
        simp only [if_neg (show ¬(false = true) by decide)]
        rw [show (resetFlags sps).enum = List.enumFrom 0 (resetFlags sps) from rfl]
        rw [← h]
        apply List.filterMap_congr
        intro p _
        cases p.2 <;> simp [Nat.add_comm]
  rw [hspec]
  have h0 : (if (0:Nat) < 0 then (0:Nat) + 1 else 0) = 0 := if_neg (Nat.lt_irrefl 0)
  cases spans with
  | nil => rfl
  | cons sp rest =>
      cases sp with
      | resetS u id' ka kw t =>
          simp only [trainedContexts, trainedGo, h0, beginsWithReset, resetFlags,
            flagsIdx, Nat.zero_add]
          rw [trainedGo_eq rest 1 0 (by omega)]
          simp
      | textS u id' ka kw t =>
          simp only [trainedContexts, trainedGo, beginsWithReset, resetFlags,
            Nat.zero_add]
          rw [trainedGo_eq rest 1 0 (by omega)]
          simp
      | egoS u id' ka kw e =>
          simp only [trainedContexts, trainedGo, beginsWithReset, resetFlags,
            Nat.zero_add]
          rw [trainedGo_eq rest 1 0 (by omega)]
          simp
      | objS u id' ka kw vs =>
          simp only [trainedContexts, trainedGo, beginsWithReset, resetFlags,
            Nat.zero_add]
          rw [trainedGo_eq rest 1 0 (by omega)]
          simp
      | sampleS u id' ka kw f =>
          simp only [trainedContexts, trainedGo, beginsWithReset, resetFlags,
            Nat.zero_add]
          rw [trainedGo_eq rest 1 0 (by omega)]
          simp
      | classS u id' ka kw n b =>
          simp only [trainedContexts, trainedGo, beginsWithReset, resetFlags,
            Nat.zero_add]
          rw [trainedGo_eq rest 1 0 (by omega)]
          simp

/-- C1: the evaluator's Obj dispatch scans `var_ids` in order, but the
source loop has no `break`: with `env = {a: "1", b: "2"}` and
`var_ids = [a, b]` it appends the four fragments for *both* ids (eight
fragments in total) instead of stopping at the first hit as the module's
own docstring ("The first variable found in the environment is used")
and the spec describe. -/
theorem c1_obj_no_first_hit_stop :
    (evalWare wFail 1 [Span.objS (str "u0") [] [] [] [str "a", str "b"]]
        (initPhore [(str "a", str "1"), (str "b", str "2")])).map
      (fun ph => ph.contexts.map (·.map (fun f => f.text))) =
    .ok [[str "<obj id=a>", str "1", str "</obj>", str "\n",
          str "<obj id=b>", str "2", str "</obj>", str "\n"]] := by
  rfl

/-- C3 (counterexample): the think-tag collapsing pass exists in the source
but is never invoked; evaluating a template whose single Text span is
`"<think>\n</think>"` (which matches the claimed shape) leaves the fragment
content unchanged rather than rewriting it to `"<think></think>"`. -/
theorem c3_counterexample :
    (evalWare wX 1 [Span.textS (str "t") [] [] [] (str "<think>\n</think>")]
        (initPhore [])).map (fun ph => ph.contexts.map (·.map (fun f => f.text))) =
      .ok [[str "<think>\n</think>"]] ∧
    thinkShape (str "<think>\n</think>") = true ∧
    str "<think>\n</think>" ≠ str "<think></think>" :=
  ⟨rfl, rfl, by decide⟩

/-- C3 (amended): no think-tag collapsing happens during evaluation — the
fragment a Text span emits carries exactly the span's text (with the
system ego and FROZEN mask), whatever its shape. -/
theorem c3_amended (w : World) (d : Nat) (u t : Str) (env : List (Str × Str)) :
    (evalWare w (d + 1) [Span.textS u [] [] [] t] (initPhore env)).map
      (fun ph => ph.contexts) =
    .ok [[⟨t, some (str "system"), FragType.frozen, SrcKind.textSrc⟩]] := by
  simp [evalWare, phase1, runSpansWith, stepSpan, handleText, addFrag,
    appendLastCtx, optimizeBlockAt, initPhore, Except.map]

/-- The payload the claim describes: the sample with a leading `<F>`
stripped when present, a trailing `</F>` stripped when present, then
whitespace-trimmed. -/
def specPayload (fence s : Str) : Str :=
  let openT := fenceOpen fence
  let closeT := fenceClose fence
  let p1 := if openT.isPrefixOf s then s.drop openT.length else s
  let p2 := if closeT.isSuffixOf p1 then p1.take (p1.length - closeT.length) else p1
  pyStrip p2

/-- `env[k] := v` then `env[k]` reads back `v`. -/
theorem envGet_envSet_self (env : List (Str × Str)) (k v : Str) :
    envGet (envSet env k v) k = some v := by
  induction env with
  | nil => simp [envSet, envGet]
  | cons kv rest ih =>
      by_cases h : kv.1 = k
      · simp [envSet, envGet, h]
      · simp [envSet, envGet, h, ih]

/-- `add_frag` changes neither the environment nor the sample counter. -/
theorem addFrag_env_nsamples (ph : Phore) (u : Str) (src : SrcKind)
    (ft : FragType) (t : Str) :
    (addFrag ph u src ft t).env = ph.env ∧
    (addFrag ph u src ft t).nsamples = ph.nsamples := ⟨rfl, rfl⟩

/-- C4 (key step): whenever the leading and trailing fence tags do not
overlap inside the sample, the code's payload computation agrees with the
claim's description. -/
theorem c4_payload_eq (fence s : Str) (hf : fence ≠ [])
    (hov : (fenceOpen fence).isPrefixOf s = true →
           (fenceClose fence).isSuffixOf s = true →
           (fenceOpen fence).length + (fenceClose fence).length ≤ s.length) :
    codePayload fence s = specPayload fence s := by
  unfold codePayload specPayload
  rw [if_neg hf]
  cases hp : (fenceOpen fence).isPrefixOf s with
  | true =>
      cases hs : (fenceClose fence).isSuffixOf s with
      | true =>
          -- both present: the slice `s[a:-c]` vs drop-then-take
          have hov' := hov hp hs
          have hsfx : fenceClose fence <:+ s := List.isSuffixOf_iff_suffix.mp hs
          obtain ⟨t, rfl⟩ := hsfx
          have hlen : (fenceOpen fence).length ≤ t.length := by
            rw [List.length_append] at hov'; omega
          have hsfx2 : (fenceClose fence).isSuffixOf
              ((t ++ fenceClose fence).drop (fenceOpen fence).length) = true := by
            rw [List.isSuffixOf_iff_suffix, List.drop_append_eq_append_drop,
              Nat.sub_eq_zero_of_le hlen, List.drop_zero]
            exact List.suffix_append _ _
          simp only [hp, hs, hsfx2, if_pos, and_self, if_true]
          rw [List.drop_take]
          have hL : (t ++ fenceClose fence).length
              = t.length + (fenceClose fence).length := List.length_append _ _
          simp only [List.length_drop, hL]
          have hc : t.length + (fenceClose fence).length - (fenceClose fence).length
                - (fenceOpen fence).length
              = t.length + (fenceClose fence).length - (fenceOpen fence).length
                - (fenceClose fence).length := by omega
          rw [hc]
      | false =>
          -- only the opening tag present
          have hsfx2 : (fenceClose fence).isSuffixOf
              (s.drop (fenceOpen fence).length) = false := by
            cases h2 : (fenceClose fence).isSuffixOf (s.drop (fenceOpen fence).length) with
            | false => rfl
            | true =>
                exfalso
                have := (List.isSuffixOf_iff_suffix.mp h2).trans (List.drop_suffix _ _)
                rw [← List.isSuffixOf_iff_suffix] at this
                simp [hs] at this
          simp [hp, hs, hsfx2]
  | false =>
      cases hs : (fenceClose fence).isSuffixOf s with
      | true =>
          -- only the closing tag present
          have hpre2 : (fenceOpen fence).isPrefixOf
              (s.take (s.length - (fenceClose fence).length)) = false := by
            cases h2 : (fenceOpen fence).isPrefixOf
                (s.take (s.length - (fenceClose fence).length)) with
            | false => rfl
            | true =>
                exfalso
                have := (List.isPrefixOf_iff_prefix.mp h2).trans (List.take_prefix _ _)
                rw [← List.isPrefixOf_iff_prefix] at this
                simp [hp] at this
          simp [hp, hs, hpre2]
      | false =>
          simp [hp, hs]

/-- C4 (amended): for a Sample span with a nonempty fence and an id, when
the external sample is nonempty and the fence tags do not overlap in it,
the span's evaluation binds `env[id]` to exactly the claim's payload: the
sample with a leading `<F>` and a trailing `</F>` stripped when present,
then whitespace-trimmed. -/
theorem c4_amended (w : World) (ph : Phore) (u id fence : Str)
    (hid : id ≠ []) (hf : fence ≠ [])
    (hsm : w.sampler ph.nsamples ≠ [])
    (hov : (fenceOpen fence).isPrefixOf (w.sampler ph.nsamples) = true →
           (fenceClose fence).isSuffixOf (w.sampler ph.nsamples) = true →
           (fenceOpen fence).length + (fenceClose fence).length ≤
             (w.sampler ph.nsamples).length) :
    envGet (handleSample w ph u id fence).env id =
      some (specPayload fence (w.sampler ph.nsamples)) := by
  unfold handleSample
  rw [if_pos hf]
  have hns : (addFrag ph u SrcKind.fenceSrc FragType.frozen (fenceOpen fence)).nsamples
      = ph.nsamples := rfl
  simp only [hns, if_neg hsm, if_pos hid, envGet_envSet_self]
  rw [c4_payload_eq fence _ hf hov]

/-- C4 witness: a concrete fenced sample whose payload round-trips. -/
theorem c4_amended_witness :
    envGet (handleSample ⟨fun _ => str "<think>abc</think>", fun _ => none⟩
        (initPhore []) (str "s") (str "k") (str "think")).env (str "k") =
      some (str "abc") := by
  have h := c4_amended ⟨fun _ => str "<think>abc</think>", fun _ => none⟩
    (initPhore []) (str "s") (str "k") (str "think")
    (by decide) (by decide) (by decide) (by decide)
  rw [h]
  rfl

/-- C4 (counterexample): with the (parser-reachable) fence `"a></a"` and the
sample `"<a></a></a>"`, the opening and closing tags overlap; the code's
slice yields `env[id] = ""` while the claim's strip-description yields
`"</a>"`. -/
theorem c4_counterexample :
    (evalWare ⟨fun _ => str "<a></a></a>", fun _ => none⟩ 1
        [Span.sampleS (str "s") (str "k") [] [] (str "a></a")]
        (initPhore [])).map (fun ph => envGet ph.env (str "k")) =
      .ok (some []) ∧
    specPayload (str "a></a") (str "<a></a></a>") = str "</a>" ∧
    ([] : Str) ≠ str "</a>" :=
  ⟨rfl, rfl, by decide⟩

/-- C5 (counterexample): with a fence set, the Sample dispatch emits the
opening fence tag as a FROZEN fragment before the REINFORCE sampled text —
so not every fragment emitted by a Sample span is REINFORCE-masked. -/
theorem c5_counterexample :
    (evalWare wX 1
        [Span.egoS (str "e") [] [] [] (str "assistant"),
         Span.sampleS (str "s") [] [] [] (str "think")]
        (initPhore [])).map
      (fun ph => ph.contexts.map (·.map (fun f => (f.text, f.ftype, f.src)))) =
    .ok [[(str "<think>", FragType.frozen, SrcKind.fenceSrc),
          (str "x</think>", FragType.reinforce, SrcKind.sampleSrc)]] := by
  rfl

/-- C2 (counterexample): a Sample span whose `sample()` call returns the
empty string does *not* increment the errors counter — evaluation
continues, finishes without `EvaluationFailed`, and `errors` is still 0. -/
theorem c2_counterexample :
    wFail.sampler 0 = [] ∧
    (evalWare wFail 1
        [Span.egoS (str "e") [] [] [] (str "assistant"),
         Span.sampleS (str "s") (str "x") [] [] (str "think"),
         Span.textS (str "t") [] [] [] (str "after")]
        (initPhore [])).map (fun ph => (ph.errors, ph.env)) =
      .ok (0, []) :=
  ⟨rfl, rfl⟩

/-- The last of the joined pieces is a suffix of the join. -/
theorem joinSep_suffix_last (sep : Str) (x : Str) :
    ∀ xs : List Str, x <:+ joinSep sep (xs ++ [x]) := by
  intro xs
  induction xs with
  | nil => exact List.suffix_refl x
  | cons a xs' ih =>
      cases hx : xs' ++ [x] with
      | nil => exact absurd hx (by simp)
      | cons y ys =>
          show x <:+ joinSep sep (a :: (xs' ++ [x]))
          rw [hx]
          show x <:+ a ++ sep ++ joinSep sep (y :: ys)
          rw [← hx]
          exact ih.trans (List.suffix_append _ _)

/-- C9 (amended): when the last raw fragment normalizes to "assistant" and
has empty text, `to_api_string` ends with the open tail
`<|im_start|>assistant` — the tail is appended after all rendered blocks
(it does not remove a closed final-assistant block; an empty final
assistant *message* is simply dropped by `to_api_messages`). -/
theorem c9_amended (frags : List Frag) (lastF : Frag)
    (h2 : frags.getLast? = some lastF)
    (h3 : normalizeRole lastF.ego (decide (frags.length - 1 = 0)) = str "assistant")
    (h4 : lastF.text = []) :
    str "<|im_start|>assistant" <:+ toApiString frags := by
  unfold toApiString
  rw [h2]
  simp only [h3, h4]
  cases hbl : (toApiMessages frags false).map renderBlock with
  | nil => simp [hbl, joinSep, List.suffix_refl]
  | cons b bs =>
      simp only [hbl, if_pos (by simp : b :: bs ≠ []), and_self, if_true]
      have := joinSep_suffix_last ['\n'] (str "<|im_start|>assistant") (b :: bs)
      simpa using this

/-- C9 witness: a context whose final assistant fragment is empty but whose
final assistant message is not. -/
theorem c9_amended_witness :
    str "<|im_start|>assistant" <:+
      toApiString [⟨str "hello", some (str "assistant"), FragType.frozen, SrcKind.outside⟩,
                   ⟨[], some (str "assistant"), FragType.frozen, SrcKind.outside⟩] :=
  c9_amended _ ⟨[], some (str "assistant"), FragType.frozen, SrcKind.outside⟩
    rfl (by decide) rfl

/-- C9 (counterexample): with a non-empty earlier assistant fragment in the
final turn, the closed `<|im_start|>assistant…<|im_end|>` block stays in
the output *and* the open tail is appended — they coexist, so the tail does
not replace the closed final-assistant block. -/
theorem c9_counterexample :
    toApiString [⟨str "hello", some (str "assistant"), FragType.frozen, SrcKind.outside⟩,
                 ⟨[], some (str "assistant"), FragType.frozen, SrcKind.outside⟩] =
      str "<|im_start|>assistant\nhello\n<|im_end|>\n<|im_start|>assistant" ∧
    isInfixOfL (str "<|im_start|>assistant\nhello\n<|im_end|>")
      (str "<|im_start|>assistant\nhello\n<|im_end|>\n<|im_start|>assistant") = true :=
  ⟨rfl, rfl⟩

/-- `dropWhile` is idempotent. -/
theorem dropWhile_idem (p : Char → Bool) (l : Str) :
    (l.dropWhile p).dropWhile p = l.dropWhile p := by
  induction l with
  | nil => rfl
  | cons c rest ih =>
      by_cases h : p c
      · simp [List.dropWhile_cons, h, ih]
      · simp [List.dropWhile_cons, h]

/-- `rstrip` is idempotent. -/
theorem pyRStrip_idem (s : Str) : pyRStrip (pyRStrip s) = pyRStrip s := by
  unfold pyRStrip
  rw [List.reverse_reverse, dropWhile_idem]

/-- The head of a `dropWhile` result fails the predicate. -/
theorem dropWhile_head_not (p : Char → Bool) :
    ∀ (l : Str) (c : Char) (t : Str), l.dropWhile p = c :: t → ¬ p c := by
  intro l
  induction l with
  | nil => intro c t h; cases h
  | cons x rest ih =>
      intro c t h
      by_cases hx : p x
      · rw [List.dropWhile_cons, if_pos hx] at h; exact ih c t h
      · rw [List.dropWhile_cons, if_neg hx] at h
        cases h; exact hx

/-- `lstrip` leaves an `rstrip`-of-`lstrip` result unchanged. -/
theorem pyLStrip_pyStrip (s : Str) : pyLStrip (pyStrip s) = pyStrip s := by
  unfold pyStrip
  cases hy : pyRStrip (pyLStrip s) with
  | nil => rfl
  | cons c t =>
      unfold pyLStrip
      rw [List.dropWhile_cons]
      have hpre : (c :: t) <+: pyLStrip s := by
        rw [← hy]
        unfold pyRStrip
        rw [← List.reverse_suffix]
        simp only [List.reverse_reverse]
        exact List.dropWhile_suffix _
      obtain ⟨tail, htail⟩ := hpre
      have hhead : pyLStrip s = c :: (t ++ tail) := by
        rw [← htail]; simp
      have := dropWhile_head_not isPySpace s c (t ++ tail) hhead
      rw [if_neg this]

/-- `str.strip` is idempotent. -/
theorem pyStrip_idem (s : Str) : pyStrip (pyStrip s) = pyStrip s := by
  conv_lhs => rw [pyStrip]
  rw [pyLStrip_pyStrip]
  show pyRStrip (pyRStrip (pyLStrip s)) = pyStrip s
  rw [pyRStrip_idem]
  rfl

/-- Every message of `to_api_messages` except the trailing flush has
stripped content (the flush itself is handled separately in C10). -/
theorem msgsGo_dropLast_stripped (dry : Bool) :
    ∀ (fs : List Frag) (cur : Str) (texts : List Str),
      ∀ m ∈ (msgsGo dry cur texts fs).dropLast, pyStrip m.content = m.content := by
  intro fs
  induction fs with
  | nil =>
      intro cur texts m hm
      unfold msgsGo at hm
      by_cases h : strConcat texts ≠ [] ∨ dry = true
      · simp [h] at hm
      · simp [h] at hm
  | cons f fs' ih =>
      intro cur texts m hm
      unfold msgsGo at hm
      by_cases hr : normalizeRole f.ego false = cur
      · rw [if_pos hr] at hm
        exact ih cur (texts ++ [f.text]) m hm
      · rw [if_neg hr] at hm
        cases hM : msgsGo dry (normalizeRole f.ego false) [f.text] fs' with
        | nil =>
            rw [hM, List.append_nil] at hm
            by_cases h : strConcat texts ≠ [] ∨ dry = true
            · simp [h] at hm
            · simp [h] at hm
        | cons m0 ms =>
            rw [hM, List.dropLast_append_of_ne_nil _ (by simp)] at hm
            rw [List.mem_append] at hm
            cases hm with
            | inl hE =>
                by_cases h : strConcat texts ≠ [] ∨ dry = true
                · rw [if_pos h] at hE
                  simp only [List.mem_singleton] at hE
                  subst hE
                  exact pyStrip_idem _
                · rw [if_neg h] at hE
                  cases hE
            | inr hR =>
                rw [← hM] at hR
                exact ih (normalizeRole f.ego false) [f.text] m hR

/-- A maximal same-role tail run accumulates into the single unstripped
flush message. -/
theorem msgsGo_tail_run (grp : List Frag) :
    ∀ (cur : Str) (texts : List Str),
      (∀ f ∈ grp, normalizeRole f.ego false = cur) →
      msgsGo false cur texts grp =
        (if strConcat (texts ++ grp.map (·.text)) ≠ []
         then [⟨cur, strConcat (texts ++ grp.map (·.text))⟩] else []) := by
  induction grp with
  | nil =>
      intro cur texts _
      unfold msgsGo
      simp [strConcat]
  | cons g grp' ih =>
      intro cur texts hall
      unfold msgsGo
      rw [if_pos (hall g (by simp))]
      rw [ih cur (texts ++ [g.text]) (fun f hf => hall f (by simp [hf]))]
      simp [strConcat]

/-- The loop part of the last-group lemma for C10. -/
theorem msgsGo_last_group (grp : List Frag) (r : Str) (hgrp : grp ≠ [])
    (hall : ∀ f ∈ grp, normalizeRole f.ego false = r)
    (hne : strConcat (grp.map (·.text)) ≠ []) :
    ∀ (pre' : List Frag) (cur : Str) (texts : List Str),
      (pre' = [] → cur ≠ r) →
      (∀ lp, pre'.getLast? = some lp → normalizeRole lp.ego false ≠ r) →
      (msgsGo false cur texts (pre' ++ grp)).getLast? =
        some ⟨r, strConcat (grp.map (·.text))⟩ := by
  intro pre'
  induction pre' with
  | nil =>
      intro cur texts hcur _
      cases grp with
      | nil => exact absurd rfl hgrp
      | cons g grp' =>
          simp only [List.nil_append]
          unfold msgsGo
          have hg : normalizeRole g.ego false = r := hall g (by simp)
          rw [if_neg (by rw [hg]; exact fun h => hcur rfl h.symm)]
          rw [hg]
          rw [msgsGo_tail_run grp' r [g.text] (fun f hf => hall f (by simp [hf]))]
          have hs : strConcat ([g.text] ++ grp'.map (·.text)) =
              strConcat ((g :: grp').map (·.text)) := by simp [strConcat]
          rw [if_pos (by rw [hs]; exact hne)]
          rw [List.getLast?_append_of_ne_nil _ (by simp)]
          simp [hs]
  | cons p pre'' ih =>
      intro cur texts hcur hlast'
      rw [List.cons_append]
      unfold msgsGo
      by_cases hq : normalizeRole p.ego false = cur
      · rw [if_pos hq]
        apply ih cur (texts ++ [p.text])
        · intro hpre''
          subst hpre''
          have := hlast' p (by simp)
          rw [hq] at this
          exact this
        · intro lp hlp
          apply hlast' lp
          cases pre'' with
          | nil => cases hlp
          | cons a l => simpa using hlp
      · rw [if_neg hq]
        have hinner := ih (normalizeRole p.ego false) [p.text]
          (by
            intro hpre''
            subst hpre''
            exact hlast' p (by simp))
          (by
            intro lp hlp
            apply hlast' lp
            cases pre'' with
            | nil => cases hlp
            | cons a l => simpa using hlp)
        have hne2 : msgsGo false (normalizeRole p.ego false) [p.text] (pre'' ++ grp) ≠ [] := by
          intro h0
          rw [h0] at hinner
          cases hinner
        rw [List.getLast?_append_of_ne_nil _ hne2]
        exact hinner

/-- C10: in `to_api_messages`, every message emitted at a role change has
whitespace-stripped content, while the tail flush emits the final
same-role group's concatenated content unstripped. -/
theorem c10_strip_behavior :
    (∀ (frags : List Frag) (dry : Bool),
      ∀ m ∈ (toApiMessages frags dry).dropLast, pyStrip m.content = m.content) ∧
    (∀ (pre grp : List Frag) (r : Str), grp ≠ [] →
      (∀ g, grp.head? = some g → normalizeRole g.ego (decide (pre = [])) = r) →
      (∀ f ∈ grp.tail, normalizeRole f.ego false = r) →
      (∀ lp, pre.getLast? = some lp →
        normalizeRole lp.ego (decide (pre.length = 1)) ≠ r) →
      strConcat (grp.map (·.text)) ≠ [] →
      (toApiMessages (pre ++ grp) false).getLast? =
        some ⟨r, strConcat (grp.map (·.text))⟩) := by
  constructor
  · intro frags dry m hm
    cases frags with
    | nil => cases hm
    | cons f fs => exact msgsGo_dropLast_stripped dry fs _ [f.text] m hm
  · intro pre grp r hgrp hhead htail hlast hne
    cases grp with
    | nil => exact absurd rfl hgrp
    | cons g grp' =>
        cases pre with
        | nil =>
            simp only [List.nil_append]
            have hg : normalizeRole g.ego true = r := by
              have := hhead g rfl
              simpa using this
            show (msgsGo false (normalizeRole g.ego true) [g.text] grp').getLast? =
              some ⟨r, strConcat ((g :: grp').map (·.text))⟩
            rw [hg]
            rw [msgsGo_tail_run grp' r [g.text]
              (fun f hf => htail f (by simpa using hf))]
            have hs : strConcat ([g.text] ++ grp'.map (·.text)) =
                strConcat ((g :: grp').map (·.text)) := by simp [strConcat]
            rw [if_pos (by rw [hs]; exact hne)]
            simp [hs]
        | cons p pre' =>
            have hall : ∀ f ∈ (g :: grp'), normalizeRole f.ego false = r := by
              intro f hf
              rcases List.mem_cons.mp hf with hf | hf
              · subst hf
                have := hhead f rfl
                simpa using this
              · exact htail f hf
            rw [List.cons_append]
            show (msgsGo false (normalizeRole p.ego true) [p.text]
                (pre' ++ (g :: grp'))).getLast? =
              some ⟨r, strConcat ((g :: grp').map (·.text))⟩
            apply msgsGo_last_group (g :: grp') r hgrp hall hne pre'
            · intro hpre'
              subst hpre'
              have := hlast p rfl
              simpa using this
            · intro lp hlp
              cases pre' with
              | nil => cases hlp
              | cons a l =>
                  have hgl : (p :: a :: l).getLast? = some lp := by
                    rw [List.getLast?_cons_cons]
                    exact hlp
                  have := hlast lp hgl
                  simpa using this

/-- C10 witness: a two-role context where the role-change message is (and
stays) stripped while the tail flush keeps its surrounding whitespace. -/
theorem c10_strip_behavior_witness :
    (∀ m ∈ (toApiMessages
        [⟨str "a", some (str "user"), FragType.frozen, SrcKind.outside⟩,
         ⟨str " b ", some (str "assistant"), FragType.frozen, SrcKind.outside⟩]
        false).dropLast, pyStrip m.content = m.content) ∧
    (toApiMessages
        [⟨str "a", some (str "user"), FragType.frozen, SrcKind.outside⟩,
         ⟨str " b ", some (str "assistant"), FragType.frozen, SrcKind.outside⟩]
        false).getLast? =
      some ⟨str "assistant", str " b "⟩ := by
  constructor
  · exact c10_strip_behavior.1 _ false
  · have h := c10_strip_behavior.2
      [⟨str "a", some (str "user"), FragType.frozen, SrcKind.outside⟩]
      [⟨str " b ", some (str "assistant"), FragType.frozen, SrcKind.outside⟩]
      (str "assistant") (by simp)
      (by intro g hg; cases hg; decide)
      (by intro f hf; cases hf)
      (by intro lp hlp; cases hlp; decide)
      (by decide)
    simpa using h

-- Errors are never incremented during evaluation (C2) ------------------

/-- `add_frag` keeps the errors counter. -/
theorem addFrag_errors (ph : Phore) (u : Str) (src : SrcKind) (ft : FragType)
    (t : Str) : (addFrag ph u src ft t).errors = ph.errors := rfl

/-- The Obj dispatch keeps the errors counter. -/
theorem handleObj_errors (u : Str) :
    ∀ (vs : List Str) (ph : Phore), (handleObj ph u vs).errors = ph.errors := by
  intro vs
  induction vs with
  | nil => intro ph; rfl
  | cons v vs' ih =>
      intro ph
      unfold handleObj
      cases envGet ph.env v with
      | none => exact ih ph
      | some value => rw [ih]; rfl

/-- The Sample dispatch keeps the errors counter (in particular a failed
`sample()` does not increment it). -/
theorem handleSample_errors (w : World) (ph : Phore) (u id fence : Str) :
    (handleSample w ph u id fence).errors = ph.errors := by
  simp only [handleSample]
  split
  · split
    · rfl
    · split <;> rfl
  · split
    · rfl
    · split <;> rfl

/-- The auto-spacing pass keeps the errors counter. -/
theorem optimizeBlockAt_errors (all : List Span) (j : Nat) (ph : Phore) :
    (optimizeBlockAt all j ph).errors = ph.errors := by
  simp only [optimizeBlockAt]
  split
  · rfl
  · split
    · split
      · split <;> rfl
      · rfl
    · rfl

/-- One-step unfolding of the main walk. -/
theorem runSpansWith_cons (eb : List Span → Phore → Except EErr Phore)
    (w : World) (all : List Span) (sp : Span) (rest : List Span) (i : Nat)
    (ph : Phore) :
    runSpansWith eb w all (sp :: rest) i ph =
      match stepSpan eb w ph sp with
      | .error e => .error e
      | .ok ph' =>
          runSpansWith eb w all rest (i + 1) (optimizeBlockAt all (i - 1) ph') := rfl

/-- A successful span dispatch keeps the errors counter, given that
class-body evaluation does. -/
theorem stepSpan_errors (eb : List Span → Phore → Except EErr Phore)
    (heb : ∀ b ph ph', eb b ph = .ok ph' → ph'.errors = ph.errors)
    (w : World) :
    ∀ (sp : Span) (ph ph'' : Phore),
      stepSpan eb w ph sp = .ok ph'' → ph''.errors = ph.errors := by
  intro sp ph ph'' h
  cases sp with
  | textS u id' ka kw t => cases h; rfl
  | egoS u id' ka kw e => cases h; rfl
  | resetS u id' ka kw tr => cases h; rfl
  | objS u id' ka kw vs => cases h; exact handleObj_errors u vs ph
  | sampleS u id' ka kw fence => cases h; exact handleSample_errors w ph u id' fence
  | classS u id' ka kw name body =>
      simp only [stepSpan] at h
      cases hcl : w.classes name with
      | none => rw [hcl] at h; cases h
      | some beh =>
          rw [hcl] at h
          cases beh with
          | some r => cases h; split <;> rfl
          | none =>
              cases body with
              | none => cases h
              | some b => exact heb b ph ph'' h

/-- A failed `sample()` leaves only the optional fence fragment and the
advanced sample counter. -/
theorem handleSample_fail (w : World) (ph : Phore) (u id fence : Str)
    (hs : w.sampler ph.nsamples = []) :
    handleSample w ph u id fence =
      { (if fence ≠ [] then
          addFrag ph u SrcKind.fenceSrc FragType.frozen (fenceOpen fence)
         else ph) with nsamples := ph.nsamples + 1 } := by
  simp only [handleSample]
  by_cases hf : fence ≠ []
  · simp only [if_pos hf]
    have hns : (addFrag ph u SrcKind.fenceSrc FragType.frozen
        (fenceOpen fence)).nsamples = ph.nsamples := rfl
    rw [hns, hs, if_pos rfl]
  · simp only [if_neg hf]
    rw [hs, if_pos rfl]

/-- The main walk keeps the errors counter, given that class-body
evaluation does. -/
theorem runSpansWith_errors (eb : List Span → Phore → Except EErr Phore)
    (heb : ∀ b ph ph', eb b ph = .ok ph' → ph'.errors = ph.errors)
    (w : World) (all : List Span) :
    ∀ (rest : List Span) (i : Nat) (ph ph' : Phore),
      runSpansWith eb w all rest i ph = .ok ph' → ph'.errors = ph.errors := by
  intro rest
  induction rest with
  | nil =>
      intro i ph ph' h
      unfold runSpansWith at h
      by_cases he : ph.errors > 0
      · rw [if_pos he] at h; cases h
      · rw [if_neg he] at h; cases h; rfl
  | cons sp rest' ih =>
      intro i ph ph' h
      rw [runSpansWith_cons] at h
      cases hst : stepSpan eb w ph sp with
      | error e => rw [hst] at h; cases h
      | ok ph'' =>
          rw [hst] at h
          have h2 := ih (i + 1) _ ph' h
          rw [h2, optimizeBlockAt_errors]
          exact stepSpan_errors eb heb w sp ph ph'' hst

/-- `Holoware.__call__` keeps the errors counter: nothing in the evaluator
ever increments it. -/
theorem evalWare_errors :
    ∀ (d : Nat) (w : World) (spans : List Span) (ph ph' : Phore),
      evalWare w d spans ph = .ok ph' → ph'.errors = ph.errors := by
  intro d
  induction d with
  | zero => intro w spans ph ph' h; cases h
  | succ d' ih =>
      intro w spans ph ph' h
      unfold evalWare at h
      cases hp1 : phase1 w spans with
      | some e => rw [hp1] at h; cases h
      | none =>
          rw [hp1] at h
          exact runSpansWith_errors (evalWare w d') (fun b p p' => ih w b p p')
            w spans spans 0 ph ph' h

/-- C2 (amended): when `sample()` returns a falsy result, the evaluator
skips the remaining actions of the span — only the FROZEN opening fence
tag (if any) was appended, `env` is untouched, the errors counter is
unchanged — and continues with the following spans; moreover the errors
counter is never incremented anywhere, so the end-of-walk
`EvaluationFailed` check cannot be triggered by sample failures. -/
theorem c2_amended :
    (∀ (eb : List Span → Phore → Except EErr Phore) (w : World)
        (all rest : List Span) (i : Nat) (ph : Phore)
        (u id : Str) (ka : List Str) (kw : List (Str × Str)) (fence : Str),
      w.sampler ph.nsamples = [] →
      ∃ ph',
        runSpansWith eb w all (Span.sampleS u id ka kw fence :: rest) i ph =
          runSpansWith eb w all rest (i + 1) (optimizeBlockAt all (i - 1) ph') ∧
        ph'.env = ph.env ∧ ph'.errors = ph.errors ∧
        ph'.contexts = (if fence = [] then ph.contexts
          else (appendLastCtx ph.contexts
            ⟨fenceOpen fence, some ph.ego, FragType.frozen, SrcKind.fenceSrc⟩).1)) ∧
    (∀ (d : Nat) (w : World) (spans : List Span) (ph ph' : Phore),
      evalWare w d spans ph = .ok ph' → ph'.errors = ph.errors) := by
  constructor
  · intro eb w all rest i ph u id ka kw fence hs
    refine ⟨handleSample w ph u id fence, rfl, ?_, ?_, ?_⟩
    · rw [handleSample_fail w ph u id fence hs]
      split <;> rfl
    · rw [handleSample_fail w ph u id fence hs]
      split <;> rfl
    · rw [handleSample_fail w ph u id fence hs]
      show (if fence ≠ [] then addFrag ph u SrcKind.fenceSrc FragType.frozen
          (fenceOpen fence) else ph).contexts = _
      by_cases hf : fence = []
      · rw [if_pos hf, if_neg (fun hc : fence ≠ [] => hc hf)]
      · rw [if_neg hf, if_pos hf]
        rfl
  · exact evalWare_errors

/-- C2 witness: a concrete failing-sampler evaluation stepping the claim's
statement at a Sample span with a fence. -/
theorem c2_amended_witness :
    ∃ ph',
      runSpansWith (evalWare wFail 0) wFail
          [Span.sampleS (str "s") (str "x") [] [] (str "think")]
          [Span.sampleS (str "s") (str "x") [] [] (str "think")] 0
          (initPhore []) =
        runSpansWith (evalWare wFail 0) wFail
          [Span.sampleS (str "s") (str "x") [] [] (str "think")] [] 1
          (optimizeBlockAt [Span.sampleS (str "s") (str "x") [] [] (str "think")]
            0 ph') ∧
      ph'.env = (initPhore []).env ∧ ph'.errors = (initPhore []).errors ∧
      ph'.contexts = (if (str "think") = [] then (initPhore []).contexts
        else (appendLastCtx (initPhore []).contexts
          ⟨fenceOpen (str "think"), some (initPhore []).ego,
            FragType.frozen, SrcKind.fenceSrc⟩).1) := by
  have h := c2_amended.1 (evalWare wFail 0) wFail
    [Span.sampleS (str "s") (str "x") [] [] (str "think")] [] 0 (initPhore [])
    (str "s") (str "x") [] [] (str "think") rfl
  simpa using h

-- Mask discipline (C5) --------------------------------------------------

/-- The mask discipline of a single fragment: REINFORCE exactly for the
sampled text of a Sample span. -/
def fragOK (f : Frag) : Prop :=
  f.ftype = FragType.reinforce ↔ f.src = SrcKind.sampleSrc

/-- The mask discipline over a whole rollout. -/
def ctxsOK (ctxs : List (List Frag)) : Prop :=
  ∀ ctx ∈ ctxs, ∀ f ∈ ctx, fragOK f

/-- A fragment of the grown rollout is an old fragment or the appended
one. -/
theorem appendLastCtx_mem (fr : Frag) :
    ∀ (ctxs : List (List Frag)) (ctx' : List Frag) (g : Frag),
      ctx' ∈ (appendLastCtx ctxs fr).1 → g ∈ ctx' →
      (∃ ctx ∈ ctxs, g ∈ ctx) ∨ g = fr := by
  intro ctxs
  induction ctxs with
  | nil =>
      intro ctx' g hc hg
      simp only [appendLastCtx, List.mem_singleton] at hc
      subst hc
      simp only [List.mem_singleton] at hg
      exact Or.inr hg
  | cons c rest ih =>
      intro ctx' g hc hg
      cases rest with
      | nil =>
          simp only [appendLastCtx, List.mem_singleton] at hc
          subst hc
          rcases List.mem_append.mp hg with h | h
          · exact Or.inl ⟨c, List.mem_singleton.mpr rfl, h⟩
          · exact Or.inr (List.mem_singleton.mp h)
      | cons c2 rest2 =>
          have hc' : ctx' ∈ c :: (appendLastCtx (c2 :: rest2) fr).1 := hc
          rcases List.mem_cons.mp hc' with h | h
          · subst h
            exact Or.inl ⟨ctx', List.mem_cons_self _ _, hg⟩
          · rcases ih ctx' g h hg with ⟨ctx, hctx, hgc⟩ | hfr
            · exact Or.inl ⟨ctx, List.mem_cons_of_mem _ hctx, hgc⟩
            · exact Or.inr hfr

/-- `add_frag` preserves the mask discipline when the appended fragment
satisfies it. -/
theorem addFrag_ctxsOK (ph : Phore) (u : Str) (src : SrcKind) (ft : FragType)
    (t : Str) (h : ctxsOK ph.contexts)
    (hfr : fragOK ⟨t, some ph.ego, ft, src⟩) :
    ctxsOK (addFrag ph u src ft t).contexts := by
  intro ctx' hc f hf
  rcases appendLastCtx_mem _ ph.contexts ctx' f hc hf with ⟨ctx, hctx, hfc⟩ | hfr'
  · exact h ctx hctx f hfc
  · rw [hfr']; exact hfr

/-- `new_context` preserves the mask discipline. -/
theorem newContext_ctxsOK (ph : Phore) (h : ctxsOK ph.contexts) :
    ctxsOK (newContext ph).contexts := by
  intro ctx' hc f hf
  rcases List.mem_append.mp hc with hcl | hcr
  · exact h ctx' hcl f hf
  · rw [List.mem_singleton.mp hcr] at hf
    cases hf

/-- The Text dispatch preserves the mask discipline (FROZEN, textSrc). -/
theorem handleText_ctxsOK (ph : Phore) (u t : Str) (h : ctxsOK ph.contexts) :
    ctxsOK (handleText ph u t).contexts :=
  addFrag_ctxsOK ph u _ _ t h (by simp [fragOK])

/-- The Obj dispatch preserves the mask discipline (all FROZEN, objSrc). -/
theorem handleObj_ctxsOK (u : Str) :
    ∀ (vs : List Str) (ph : Phore), ctxsOK ph.contexts →
      ctxsOK (handleObj ph u vs).contexts := by
  intro vs
  induction vs with
  | nil => intro ph h; exact h
  | cons v vs' ih =>
      intro ph h
      unfold handleObj
      cases envGet ph.env v with
      | none => exact ih ph h
      | some value =>
          apply ih
          apply addFrag_ctxsOK _ _ _ _ _ ?_ (by simp [fragOK])
          apply addFrag_ctxsOK _ _ _ _ _ ?_ (by simp [fragOK])
          apply addFrag_ctxsOK _ _ _ _ _ ?_ (by simp [fragOK])
          exact addFrag_ctxsOK _ _ _ _ _ h (by simp [fragOK])

/-- The Sample dispatch preserves the mask discipline: the fence tag is
FROZEN/fenceSrc, the sampled text REINFORCE/sampleSrc. -/
theorem handleSample_ctxsOK (w : World) (ph : Phore) (u id fence : Str)
    (h : ctxsOK ph.contexts) :
    ctxsOK (handleSample w ph u id fence).contexts := by
  simp only [handleSample]
  split
  · have h1 : ctxsOK (addFrag ph u SrcKind.fenceSrc FragType.frozen
        (fenceOpen fence)).contexts :=
      addFrag_ctxsOK ph u _ _ _ h (by simp [fragOK])
    split
    · exact h1
    · split
      · exact addFrag_ctxsOK
          { addFrag ph u SrcKind.fenceSrc FragType.frozen (fenceOpen fence) with
            nsamples := (addFrag ph u SrcKind.fenceSrc FragType.frozen
              (fenceOpen fence)).nsamples + 1 }
          u SrcKind.sampleSrc FragType.reinforce _ h1 (by simp [fragOK])
      · exact addFrag_ctxsOK _ _ _ _ _ h1 (by simp [fragOK])
  · split
    · exact h
    · split
      · exact addFrag_ctxsOK
          { ph with nsamples := ph.nsamples + 1 }
          u SrcKind.sampleSrc FragType.reinforce _ h (by simp [fragOK])
      · exact addFrag_ctxsOK _ _ _ _ _ h (by simp [fragOK])

/-- Elements of `modifyIdx` are old elements or the modified image of
one. -/
theorem modifyIdx_mem {α : Type} (g : α → α) :
    ∀ (l : List α) (n : Nat) (x : α), x ∈ modifyIdx l n g →
      x ∈ l ∨ ∃ y ∈ l, x = g y := by
  intro l
  induction l with
  | nil => intro n x hx; cases hx
  | cons a l' ih =>
      intro n x hx
      cases n with
      | zero =>
          rcases List.mem_cons.mp hx with h | h
          · exact Or.inr ⟨a, List.mem_cons_self _ _, h⟩
          · exact Or.inl (List.mem_cons_of_mem _ h)
      | succ n' =>
          rcases List.mem_cons.mp hx with h | h
          · exact Or.inl (h ▸ List.mem_cons_self _ _)
          · rcases ih n' x h with h' | ⟨y, hy, hxy⟩
            · exact Or.inl (List.mem_cons_of_mem _ h')
            · exact Or.inr ⟨y, List.mem_cons_of_mem _ hy, hxy⟩

/-- Text mutation preserves the mask discipline (masks and sources are
untouched). -/
theorem mutateFragText_ctxsOK (ph : Phore) (hd : Nat × Nat) (g : Str → Str)
    (h : ctxsOK ph.contexts) : ctxsOK (mutateFragText ph hd g).contexts := by
  intro ctx' hc f hf
  rcases modifyIdx_mem _ ph.contexts hd.1 ctx' hc with hold | ⟨ctx, hctx, hmod⟩
  · exact h ctx' hold f hf
  · subst hmod
    rcases modifyIdx_mem _ ctx hd.2 f hf with hold | ⟨fr, hfr, hmodf⟩
    · exact h ctx hctx f hold
    · subst hmodf
      exact h ctx hctx fr hfr

/-- The auto-spacing pass preserves the mask discipline. -/
theorem optimizeBlockAt_ctxsOK (all : List Span) (j : Nat) (ph : Phore)
    (h : ctxsOK ph.contexts) : ctxsOK (optimizeBlockAt all j ph).contexts := by
  simp only [optimizeBlockAt]
  split
  · exact h
  · split
    · split
      · split
        · exact mutateFragText_ctxsOK _ _ _ (mutateFragText_ctxsOK _ _ _ h)
        · exact h
      · exact h
    · exact h

/-- A successful span dispatch preserves the mask discipline, given that
class-body evaluation does. -/
theorem stepSpan_ctxsOK (eb : List Span → Phore → Except EErr Phore)
    (heb : ∀ b ph ph', eb b ph = .ok ph' → ctxsOK ph.contexts → ctxsOK ph'.contexts)
    (w : World) :
    ∀ (sp : Span) (ph ph'' : Phore), stepSpan eb w ph sp = .ok ph'' →
      ctxsOK ph.contexts → ctxsOK ph''.contexts := by
  intro sp ph ph'' h hok
  cases sp with
  | textS u id' ka kw t => cases h; exact handleText_ctxsOK ph u t hok
  | egoS u id' ka kw e => cases h; exact hok
  | resetS u id' ka kw tr => cases h; exact newContext_ctxsOK ph hok
  | objS u id' ka kw vs => cases h; exact handleObj_ctxsOK u vs ph hok
  | sampleS u id' ka kw fence =>
      cases h; exact handleSample_ctxsOK w ph u id' fence hok
  | classS u id' ka kw name body =>
      simp only [stepSpan] at h
      cases hcl : w.classes name with
      | none => rw [hcl] at h; cases h
      | some beh =>
          rw [hcl] at h
          cases beh with
          | some r =>
              cases h
              split
              · exact addFrag_ctxsOK _ _ _ _ _ hok (by simp [fragOK])
              · exact hok
          | none =>
              cases body with
              | none => cases h
              | some b => exact heb b ph ph'' h hok

/-- The main walk preserves the mask discipline, given that class-body
evaluation does. -/
theorem runSpansWith_ctxsOK (eb : List Span → Phore → Except EErr Phore)
    (heb : ∀ b ph ph', eb b ph = .ok ph' → ctxsOK ph.contexts → ctxsOK ph'.contexts)
    (w : World) (all : List Span) :
    ∀ (rest : List Span) (i : Nat) (ph ph' : Phore),
      runSpansWith eb w all rest i ph = .ok ph' →
      ctxsOK ph.contexts → ctxsOK ph'.contexts := by
  intro rest
  induction rest with
  | nil =>
      intro i ph ph' h hok
      unfold runSpansWith at h
      by_cases he : ph.errors > 0
      · rw [if_pos he] at h; cases h
      · rw [if_neg he] at h; cases h; exact hok
  | cons sp rest' ih =>
      intro i ph ph' h hok
      rw [runSpansWith_cons] at h
      cases hst : stepSpan eb w ph sp with
      | error e => rw [hst] at h; cases h
      | ok ph'' =>
          rw [hst] at h
          exact ih (i + 1) _ ph' h
            (optimizeBlockAt_ctxsOK all (i - 1) ph''
              (stepSpan_ctxsOK eb heb w sp ph ph'' hst hok))

/-- `Holoware.__call__` preserves the mask discipline at every nesting
depth. -/
theorem evalWare_ctxsOK :
    ∀ (d : Nat) (w : World) (spans : List Span) (ph ph' : Phore),
      evalWare w d spans ph = .ok ph' →
      ctxsOK ph.contexts → ctxsOK ph'.contexts := by
  intro d
  induction d with
  | zero => intro w spans ph ph' h _; cases h
  | succ d' ih =>
      intro w spans ph ph' h hok
      unfold evalWare at h
      cases hp1 : phase1 w spans with
      | some e => rw [hp1] at h; cases h
      | none =>
          rw [hp1] at h
          exact runSpansWith_ctxsOK (evalWare w d')
            (fun b p p' hb => ih w b p p' hb) w spans spans 0 ph ph' h hok

/-- C5 (amended): after evaluating any template, the sampled text emitted
by a Sample span is REINFORCE-masked, and every other fragment — including
the opening fence tag a Sample span emits — is FROZEN. -/
theorem c5_amended (w : World) (d : Nat) (spans : List Span)
    (env : List (Str × Str)) (ph' : Phore)
    (h : evalWare w d spans (initPhore env) = .ok ph') :
    ∀ ctx ∈ ph'.contexts, ∀ f ∈ ctx,
      (f.src = SrcKind.sampleSrc → f.ftype = FragType.reinforce) ∧
      (f.src ≠ SrcKind.sampleSrc → f.ftype = FragType.frozen) := by
  have hok : ctxsOK ph'.contexts :=
    evalWare_ctxsOK d w spans (initPhore env) ph' h (by intro ctx hc; cases hc)
  intro ctx hc f hf
  have hfr := hok ctx hc f hf
  constructor
  · intro hsrc; exact hfr.mpr hsrc
  · intro hsrc
    cases hft : f.ftype with
    | frozen => rfl
    | reinforce => exact absurd (hfr.mp hft) hsrc

/-- C5 witness: the invariant holds of the concrete fenced-sample
evaluation. -/
theorem c5_amended_witness :
    ∃ ph', evalWare wX 1
        [Span.egoS (str "e") [] [] [] (str "assistant"),
         Span.sampleS (str "s") [] [] [] (str "think")]
        (initPhore []) = .ok ph' ∧
      ∀ ctx ∈ ph'.contexts, ∀ f ∈ ctx,
        (f.src = SrcKind.sampleSrc → f.ftype = FragType.reinforce) ∧
        (f.src ≠ SrcKind.sampleSrc → f.ftype = FragType.frozen) :=
  ⟨_, rfl, c5_amended wX 1
    [Span.egoS (str "e") [] [] [] (str "assistant"),
     Span.sampleS (str "s") [] [] [] (str "think")] [] _ rfl⟩

/-- C6 (counterexample): `"#x"` contains no `<|` and no trailing backslash,
yet parsing yields *no* span at all — the comment filter drops the line
before scanning. -/
theorem c6_counterexample : parse (str "#x") = .ok [] := by rfl

-- Round-trip of plain text (C6 amended) -------------------------------

/-- `isInfixOfL p s = false` read pointwise: no suffix of `s` starts with
`p`. -/
theorem noInfix_iff (p s : Str) :
    isInfixOfL p s = false ↔ ∀ t, t <:+ s → ¬ p.isPrefixOf t = true := by
  simp only [isInfixOfL, List.any_eq_false]
  constructor
  · intro h t ht
    exact h t ((List.mem_tails t s).mpr ht)
  · intro h t ht
    exact h t ((List.mem_tails t s).mp ht)

/-- A pattern that never occurs still never occurs after extending it on
the left. -/
theorem noInfix_cons (c : Char) (p s : Str) (h : isInfixOfL p s = false) :
    isInfixOfL (c :: p) s = false := by
  rw [noInfix_iff] at h ⊢
  intro t ht hpre
  obtain ⟨r, rfl⟩ := List.isPrefixOf_iff_prefix.mp hpre
  exact h (p ++ r) (((List.suffix_cons c (p ++ r)).trans ht))
    (List.isPrefixOf_iff_prefix.mpr (List.prefix_append p r))

/-- `str.replace` is the identity when the pattern does not occur. -/
theorem replaceSubGo_id (pat rep : Str) :
    ∀ (s : Str) (fuel : Nat),
      (∀ t, t <:+ s → ¬ pat.isPrefixOf t = true) →
      replaceSubGo pat rep fuel s = s := by
  intro s
  induction s with
  | nil => intro fuel _; cases fuel <;> rfl
  | cons c rest ih =>
      intro fuel h
      cases fuel with
      | zero => rfl
      | succ f =>
          simp only [replaceSubGo]
          rw [if_neg (fun hc => h (c :: rest) (List.suffix_refl _) hc.2)]
          rw [ih f (fun t ht => h t (ht.trans (List.suffix_cons c rest)))]

/-- `str.replace(pat, rep)` is the identity when the pattern does not
occur. -/
theorem replaceSub_id (pat rep s : Str) (h : isInfixOfL pat s = false) :
    replaceSub pat rep s = s :=
  replaceSubGo_id pat rep s s.length ((noInfix_iff pat s).mp h)

/-- `splitOnChar` never returns the empty list of pieces. -/
theorem splitOnChar_ne_nil (c : Char) (s : Str) : splitOnChar c s ≠ [] := by
  cases s with
  | nil => simp [splitOnChar]
  | cons x rest =>
      simp only [splitOnChar]
      split
      · simp
      · split <;> simp

/-- Splitting on a character and rejoining with it is the identity. -/
theorem joinSep_splitOnChar (c : Char) (s : Str) :
    joinSep [c] (splitOnChar c s) = s := by
  induction s with
  | nil => rfl
  | cons x rest ih =>
      simp only [splitOnChar]
      by_cases hx : x = c
      · subst hx
        rw [if_pos rfl]
        obtain ⟨l, ls, hsplit⟩ : ∃ l ls, splitOnChar x rest = l :: ls := by
          cases hsp : splitOnChar x rest with
          | nil => exact absurd hsp (splitOnChar_ne_nil x rest)
          | cons l ls => exact ⟨l, ls, rfl⟩
        rw [hsplit] at ih ⊢
        show ([] : Str) ++ [x] ++ joinSep [x] (l :: ls) = x :: rest
        rw [ih]
        rfl
      · rw [if_neg hx]
        cases hsplit : splitOnChar c rest with
        | nil => exact absurd hsplit (splitOnChar_ne_nil c rest)
        | cons l ls =>
            rw [hsplit] at ih
            cases ls with
            | nil =>
                simp only [joinSep] at ih
                show x :: l = x :: rest
                rw [ih]
            | cons y ys =>
                simp only [joinSep] at ih ⊢
                show x :: (l ++ [c] ++ joinSep [c] (y :: ys)) = x :: rest
                rw [ih]

/-- `filter_comments` is the identity when no line is a comment. -/
theorem filterComments_id (S : Str)
    (h : ∀ line ∈ splitOnChar '\n' S, ¬ (str "#").isPrefixOf (pyStrip line) = true) :
    filterComments S = S := by
  unfold filterComments
  rw [List.filter_eq_self.mpr (fun line hl => decide_eq_true (h line hl))]
  exact joinSep_splitOnChar '\n' S

/-- `str.find` misses when the pattern does not occur at all. -/
theorem findSub_none (S pat : Str) (start : Nat)
    (h : isInfixOfL pat S = false) : findSub S pat start = none := by
  unfold findSub
  rw [List.filter_eq_nil_iff.mpr]
  · rfl
  · intro i _ hp
    simp only [Bool.and_eq_true] at hp
    exact (noInfix_iff pat S).mp h (S.drop i) (List.drop_suffix i S) hp.2

/-- `_add_span` of a first, non-blank `TextSpan` into the fresh state just
appends it. -/
theorem addSpan_first_text (n : Nat) (u S : Str) (h : pyStrip S ≠ []) :
    addSpan ⟨[], none, n⟩ (Span.textS u [] [] [] S) =
      .ok ⟨[Span.textS u [] [] [] S], none, n⟩ := by
  show (if pyStrip S = [] then (Except.ok ⟨[], none, n⟩ : Except PErr PState)
        else .ok ⟨[Span.textS u [] [] [] S], none, n⟩) = _
  rw [if_neg h]

/-- C6 (amended): for a string with no `<|`, no doubled backslash, no
comment line, and a non-whitespace character somewhere, parsing yields
exactly one Text span whose text is the string itself.  (The original
claim lacked the last three conditions: the counterexample shows the
comment filter alone already breaks it.) -/
theorem c6_amended (S : Str)
    (hnt : isInfixOfL (str "<|") S = false)
    (hbs : isInfixOfL (str "\\\\") S = false)
    (hcm : ∀ line ∈ splitOnChar '\n' S, ¬ (str "#").isPrefixOf (pyStrip line) = true)
    (hne : pyStrip S ≠ []) :
    parse S = .ok [Span.textS (freshUuid 0) [] [] [] S] := by
  have hSne : S ≠ [] := fun hc => hne (by rw [hc]; rfl)
  have hrep1 : replaceSub (str "\\\\") (str "\\") S = S := replaceSub_id _ _ S hbs
  have hrep2 : replaceSub (str "\\<|") (str "<|") S = S :=
    replaceSub_id _ _ S (noInfix_cons '\\' (str "<|") S hnt)
  have hfind : findNextFrom S (S.length + 1) 0 = none := by
    simp only [findNextFrom, findSub_none S (str "<|") 0 hnt]
  have hpts : parseTextStep ⟨[], none, 0⟩ S =
      .ok ⟨[Span.textS (freshUuid 0) [] [] [] S], none, 1⟩ := by
    simp only [parseTextStep]
    rw [hrep1, hrep2, if_neg hSne, if_neg hSne]
    exact addSpan_first_text 1 (freshUuid 0) S hne
  have hloop : parseLoop ((S.length + 1) * (S.length + 1)) S 0 ⟨[], none, 0⟩ =
      .ok ⟨[Span.textS (freshUuid 0) [] [] [] S], none, 1⟩ := by
    rw [show (S.length + 1) * (S.length + 1) = S.length * (S.length + 2) + 1 by ring]
    simp only [parseLoop]
    rw [if_pos (List.length_pos.mpr hSne)]
    simp only [hfind, List.drop_zero, hpts]
    rfl
  simp only [parse]
  rw [filterComments_id S hcm, hloop]

/-- C6 witness: the plain string `"hello"` round-trips. -/
theorem c6_amended_witness :
    parse (str "hello") = .ok [Span.textS (freshUuid 0) [] [] [] (str "hello")] :=
  c6_amended (str "hello") (by decide) (by decide) (by decide) (by decide)

/-- C7 (counterexample): the tag base `"Foo:myid"` dispatches to the class
builder, which does not split the `:id` suffix: the resulting span's
class name is the whole base and its human handle stays `""` (the claim
would require class name `"Foo"` and id `"myid"`). -/
theorem c7_counterexample :
    buildSpan 0 (str "Foo:myid") =
      .ok ([Span.classS (freshUuid 0) [] [] [] (str "Foo:myid") none], 1) ∧
    str "Foo:myid" ≠ str "Foo" ∧ ([] : Str) ≠ str "myid" :=
  ⟨rfl, by decide, by decide⟩

-- The `:id` suffix (C7 amended) ---------------------------------------

/-- `takeWhile (≠ c)` stops exactly at the first `c`. -/
theorem takeWhile_upto_colon (suf : Str) :
    ∀ pre : Str, (∀ c ∈ pre, ¬ c = ':') →
      (pre ++ ':' :: suf).takeWhile (fun c => c ≠ ':') = pre := by
  intro pre
  induction pre with
  | nil => simp [List.takeWhile]
  | cons c cs ih =>
      intro hpre
      have hc : decide (c ≠ ':') = true :=
        decide_eq_true (hpre c (List.mem_cons_self c cs))
      simp only [List.cons_append, List.takeWhile, hc]
      exact congrArg (c :: ·) (ih (fun x hx => hpre x (List.mem_cons_of_mem c hx)))

/-- `dropWhile (≠ c)` resumes exactly at the first `c`. -/
theorem dropWhile_upto_colon (suf : Str) :
    ∀ pre : Str, (∀ c ∈ pre, ¬ c = ':') →
      (pre ++ ':' :: suf).dropWhile (fun c => c ≠ ':') = ':' :: suf := by
  intro pre
  induction pre with
  | nil => simp [List.dropWhile]
  | cons c cs ih =>
      intro hpre
      have hc : decide (c ≠ ':') = true :=
        decide_eq_true (hpre c (List.mem_cons_self c cs))
      simp only [List.cons_append, List.dropWhile, hc]
      exact ih (fun x hx => hpre x (List.mem_cons_of_mem c hx))

/-- `base.split(":", 1)` on a base whose head part is colon-free. -/
theorem splitFirstColon_split (pre suf : Str) (hpre : ∀ c ∈ pre, ¬ c = ':') :
    splitFirstColon (pre ++ ':' :: suf) = (pre, suf) := by
  have hmem : ':' ∈ pre ++ ':' :: suf :=
    List.mem_append_right pre (List.mem_cons_self ':' suf)
  unfold splitFirstColon
  rw [if_pos (List.elem_eq_true_of_mem hmem), takeWhile_upto_colon suf pre hpre,
    dropWhile_upto_colon suf pre hpre]
  rfl

/-- C7 (amended): the `:id` suffix is split off only by the ego/sampler
builder — there the suffix becomes the emitted Ego span's *uuid* (its `id`
stays empty) and both uuid and id of an emitted Sample span.  A base with a
colon is never a context reset, and the Class and Obj builders keep the
whole base — colon, suffix and all — as the class name / `var_ids` source,
drawing their `id` from kwargs alone. -/
theorem c7_amended (pre suf : Str) (kargs : List Str)
    (kwargs : List (Str × Str)) (n : Nat) (hpre : ∀ c ∈ pre, ¬ c = ':') :
    splitFirstColon (pre ++ ':' :: suf) = (pre, suf) ∧
    (buildEgoOrSampler (pre ++ ':' :: suf) kargs kwargs).head? =
      some (Span.egoS suf [] [] [] (egoMap pre)) ∧
    (∀ sp ∈ (buildEgoOrSampler (pre ++ ':' :: suf) kargs kwargs).tail,
      sp.uuid = suf ∧ sp.id = suf) ∧
    isContextReset (pre ++ ':' :: suf) = false ∧
    (envGet kwargs (str "class_name") = none →
      ∃ u r, buildClass n (pre ++ ':' :: suf) kargs kwargs =
        Span.classS u ((envGet kwargs (str "id")).getD []) kargs r
          (pre ++ ':' :: suf) none) ∧
    (∃ u r, buildObj n (pre ++ ':' :: suf) kargs kwargs =
      Span.objS u ((envGet kwargs (str "id")).getD []) kargs r
        ((splitOnChar '|' (pre ++ ':' :: suf)).map pyStrip)) := by
  have hsplit := splitFirstColon_split pre suf hpre
  have hmem : ':' ∈ pre ++ ':' :: suf :=
    List.mem_append_right pre (List.mem_cons_self ':' suf)
  refine ⟨hsplit, ?_, ?_, ?_, ?_, ?_⟩
  · simp only [buildEgoOrSampler, hsplit]
    rfl
  · intro sp hsp
    simp only [buildEgoOrSampler, hsplit, List.tail_cons] at hsp
    repeat' split at hsp
    all_goals simp only [List.mem_singleton, List.not_mem_nil] at hsp
    all_goals subst hsp
    all_goals exact ⟨rfl, rfl⟩
  · apply decide_eq_false_iff_not.mpr
    intro hor
    rcases hor with h | h | h | h | h | h | h | h | h <;>
      (rw [h] at hmem; exact absurd hmem (by decide))
  · intro hcn
    exact ⟨_, _, by simp only [buildClass, hcn]; rfl⟩
  · exact ⟨_, _, rfl⟩

/-- C7 witness: the amended statement at the concrete base `"@_@:x"`. -/
theorem c7_amended_witness :
    splitFirstColon (str "@_@" ++ ':' :: str "x") = (str "@_@", str "x") ∧
    (buildEgoOrSampler (str "@_@" ++ ':' :: str "x") [] []).head? =
      some (Span.egoS (str "x") [] [] [] (egoMap (str "@_@"))) ∧
    (∀ sp ∈ (buildEgoOrSampler (str "@_@" ++ ':' :: str "x") [] []).tail,
      sp.uuid = str "x" ∧ sp.id = str "x") ∧
    isContextReset (str "@_@" ++ ':' :: str "x") = false ∧
    (envGet [] (str "class_name") = none →
      ∃ u r, buildClass 0 (str "@_@" ++ ':' :: str "x") [] [] =
        Span.classS u ((envGet [] (str "id")).getD []) [] r
          (str "@_@" ++ ':' :: str "x") none) ∧
    (∃ u r, buildObj 0 (str "@_@" ++ ':' :: str "x") [] [] =
      Span.objS u ((envGet [] (str "id")).getD []) [] r
        ((splitOnChar '|' (str "@_@" ++ ':' :: str "x")).map pyStrip)) :=
  c7_amended (str "@_@") (str "x") [] [] 0 (by decide)

end Claims

end Holoware
